import Mathlib

/-!
# Verification of the owid-grapher reactive tabular data engine

A shallow embedding of the core of the repository:

* `src/unnamed/part_000` (OwidTable.ts): the table / column abstraction, the
  grouped rolling-average routine and the legacy ingestion (`fromLegacy`);
* `src/charts/ChartData.ts`: the derivation graph over a chart configuration
  (`isReady`, `filledDimensions`, selection read/write, `setKeyColor`);
* `src/charts/ChartConfig.tsx`: the configuration state referenced by
  `ChartData` (`updatePopulationFilter`, `addCountryMode` default).

JavaScript conventions modelled explicitly:

* a JS value stored in a row cell is `Val` (number / string / boolean / null);
  an *absent* field (JS `undefined`) is `Option.none`;
* a JS `Map` is an insertion-ordered association list; `Map.set` replaces the
  value in place when the key is present and appends otherwise (`jsSet`);
* JS truthiness is `jsTruthy` / absent-is-falsy `jsTruthyOpt`.

Cell values on the claim-relevant paths (entity ids, day offsets, populations)
are integers and are modelled as `Int`; the smoothing engine's averages are
genuine fractions and are modelled as `ℚ` (no claim exercises
floating-point-specific behaviour).
-/

namespace Owid

/-- A JavaScript value as stored in a row cell.  JS `undefined` is represented
by `Option.none` at use sites, so `Val` itself only covers defined values. -/
inductive Val where
  | num (n : Int)
  | str (s : String)
  | bool (b : Bool)
  | null
  deriving DecidableEq

/-- JS truthiness of a defined value. -/
def jsTruthy : Val → Bool
  | .num n => n ≠ 0
  | .str s => s ≠ ""
  | .bool b => b
  | .null => false

/-- JS truthiness where `none` is `undefined` (falsy). -/
def jsTruthyOpt : Option Val → Bool
  | some v => jsTruthy v
  | none => false

/-- String conversion of a value, as used by JS template literals and string
concatenation (`Int.repr` prints like a JS integer). -/
def jsToString : Val → String
  | .num n => toString n
  | .str s => s
  | .bool b => if b then "true" else "false"
  | .null => "null"

/-- String conversion where `none` is JS `undefined`. -/
def jsToStringOpt : Option Val → String
  | some v => jsToString v
  | none => "undefined"

/-! ## Insertion-ordered maps (JS `Map`, and JS objects used as dictionaries)

`jsSet` implements `Map.prototype.set`: if the key is present its value is
replaced in place (the entry keeps its original position), otherwise the new
entry is appended.  `jsGet` is `Map.prototype.get` (with `none` for a missing
key). -/

/-- JS `Map.get`. -/
def jsGet {κ α : Type} [DecidableEq κ] : List (κ × α) → κ → Option α
  | [], _ => none
  | (k0, v0) :: rest, k => if k = k0 then some v0 else jsGet rest k

/-- JS `Map.set`: replace in place when present, append otherwise. -/
def jsSet {κ α : Type} [DecidableEq κ] : List (κ × α) → κ → α → List (κ × α)
  | [], k, v => [(k, v)]
  | (k0, v0) :: rest, k, v =>
      if k0 = k then (k0, v) :: rest else (k0, v0) :: jsSet rest k v

/-- JS `Map.has`. -/
def jsHas {κ α : Type} [DecidableEq κ] (m : List (κ × α)) (k : κ) : Bool :=
  (jsGet m k).isSome

theorem jsGet_jsSet {κ α : Type} [DecidableEq κ] (m : List (κ × α)) (k k' : κ) (v : α) :
    jsGet (jsSet m k v) k' = if k' = k then some v else jsGet m k' := by
  induction m with
  | nil => simp only [jsSet, jsGet]
  | cons hd tl ih =>
    obtain ⟨k0, v0⟩ := hd
    by_cases h0 : k0 = k
    · subst h0
      simp only [jsSet, if_pos rfl, jsGet]
      by_cases h : k' = k0 <;> simp [h]
    · simp only [jsSet, if_neg h0, jsGet]
      by_cases h : k' = k0
      · have hne : k' ≠ k := by rw [h]; exact h0
        simp [h, hne, h0]
      · simp [h, ih]

/-- Every binding reachable by `jsGet` through a fold of `jsSet`s over a list
was either inserted by one of the folded entries (with exactly that key), or
was already present in the initial map. -/
theorem jsGet_foldl_jsSet {κ α β : Type} [DecidableEq κ]
    (f : β → κ) (g : β → α) (l : List β) (m0 : List (κ × α)) (k : κ) (v : α) :
    jsGet (l.foldl (fun m b => jsSet m (f b) (g b)) m0) k = some v →
    (∃ b ∈ l, f b = k ∧ g b = v) ∨ jsGet m0 k = some v := by
  induction l generalizing m0 with
  | nil => intro h; exact Or.inr h
  | cons hd tl ih =>
    intro h
    rcases ih _ h with h1 | h2
    · obtain ⟨b, hb, hfb, hgb⟩ := h1
      exact Or.inl ⟨b, List.mem_cons_of_mem _ hb, hfb, hgb⟩
    · rw [jsGet_jsSet] at h2
      by_cases hk : k = f hd
      · simp [hk] at h2
        exact Or.inl ⟨hd, List.mem_cons_self hd tl, hk.symm, h2⟩
      · simp [hk] at h2
        exact Or.inr h2

/-! ## Rows

A row is a JS object: an insertion-ordered association of field names to
values.  `rowGet row k = none` models `row[k] === undefined`. -/

/-- A table row (a JS object keyed by column slug). -/
abbrev Row : Type := List (String × Val)

/-- `row[k]` (where `none` is `undefined`). -/
def rowGet (r : Row) (k : String) : Option Val := jsGet r k

/-- `row[k] = v` (field assignment). -/
def rowSet (r : Row) (k : String) (v : Val) : Row := jsSet r k v

/-- `delete row[k]`. -/
def rowDelete (r : Row) (k : String) : Row :=
  (r : List (String × Val)).filter (fun p => p.1 ≠ k)

theorem rowGet_rowSet (r : Row) (k k' : String) (v : Val) :
    rowGet (rowSet r k v) k' = if k' = k then some v else rowGet r k' :=
  jsGet_jsSet r k k' v

theorem rowDelete_cons (k0 : String) (v0 : Val) (tl : Row) (k : String) :
    rowDelete ((k0, v0) :: tl) k
      = if k0 = k then rowDelete tl k else (k0, v0) :: rowDelete tl k := by
  by_cases h : k0 = k <;> simp [rowDelete, List.filter_cons, h]

theorem rowDelete_of_not_mem (r : Row) (k : String) (h : rowGet r k = none) :
    rowDelete r k = r := by
  induction r with
  | nil => rfl
  | cons hd tl ih =>
    obtain ⟨k0, v0⟩ := hd
    by_cases hk : k = k0
    · subst hk; simp [rowGet, jsGet] at h
    · simp [rowGet, jsGet, hk] at h
      have hk0 : ¬ k0 = k := fun he => hk he.symm
      rw [rowDelete_cons, if_neg hk0, ih h]

/-- Deleting a field that was appended by `rowSet` restores the original row
(when the field was absent before the `rowSet`). -/
theorem rowDelete_rowSet (r : Row) (k : String) (v : Val) (h : rowGet r k = none) :
    rowDelete (rowSet r k v) k = r := by
  induction r with
  | nil => simp [rowSet, jsSet, rowDelete, List.filter]
  | cons hd tl ih =>
    obtain ⟨k0, v0⟩ := hd
    by_cases hk : k = k0
    · subst hk; simp [rowGet, jsGet] at h
    · simp [rowGet, jsGet, hk] at h
      have hk0 : ¬ k0 = k := fun he => hk he.symm
      show rowDelete (jsSet ((k0, v0) :: tl) k v) k = (k0, v0) :: tl
      rw [show jsSet ((k0, v0) :: tl) k v = (k0, v0) :: jsSet tl k v from by
        simp [jsSet, hk0]]
      rw [rowDelete_cons, if_neg hk0]
      exact congrArg _ (ih h)

/-- `rowSet` with a fresh key leaves every other field unchanged. -/
theorem rowGet_rowSet_ne (r : Row) (k k' : String) (v : Val) (h : k' ≠ k) :
    rowGet (rowSet r k v) k' = rowGet r k' := by
  rw [rowGet_rowSet]; simp [h]

/-! ## First-occurrence deduplication (lodash `uniq` / `uniqWith`, JS `Set`)

`dedupOnAux` keeps the first element of each key class, in order; this is the
observable behaviour of `new Set(xs)` iteration, lodash `uniq`, and lodash
`uniqWith` with an equality comparator on a key projection. -/

/-- Keep the first element of each key class (accumulator = keys already kept). -/
def dedupOnAux {α β : Type} [DecidableEq β] (key : α → β) (seen : List β) : List α → List α
  | [] => []
  | a :: rest =>
      if key a ∈ seen then dedupOnAux key seen rest
      else a :: dedupOnAux key (key a :: seen) rest

/-- lodash `uniqWith xs (fun a b => key a = key b)` / JS `Set` iteration order. -/
def dedupOn {α β : Type} [DecidableEq β] (key : α → β) (l : List α) : List α :=
  dedupOnAux key [] l

/-- `dedupFirst` = `Array.from(new Set(xs))`. -/
def dedupFirst {α : Type} [DecidableEq α] (l : List α) : List α :=
  dedupOn id l

/-- `dedupOnAux` only depends on the set of already-seen keys. -/
theorem dedupOnAux_congr {α β : Type} [DecidableEq β] (key : α → β) :
    ∀ (l : List α) (s1 s2 : List β), (∀ x, x ∈ s1 ↔ x ∈ s2) →
      dedupOnAux key s1 l = dedupOnAux key s2 l := by
  intro l
  induction l with
  | nil => intros; rfl
  | cons a rest ih =>
    intro s1 s2 hs
    by_cases h : key a ∈ s1
    · have h2 : key a ∈ s2 := (hs _).mp h
      simp [dedupOnAux, h, h2, ih _ _ hs]
    · have h2 : key a ∉ s2 := fun hx => h ((hs _).mpr hx)
      simp [dedupOnAux, h, h2]
      refine ih _ _ ?_
      intro x; simp [hs x]

/-- A seen key that never occurs in the list is irrelevant. -/
theorem dedupOnAux_cons_seen {α β : Type} [DecidableEq β] (key : α → β) :
    ∀ (l : List α) (b : β) (seen : List β), b ∉ l.map key →
      dedupOnAux key (b :: seen) l = dedupOnAux key seen l := by
  intro l
  induction l with
  | nil => intros; rfl
  | cons a rest ih =>
    intro b seen hb
    simp at hb
    push_neg at hb
    have hab : key a ≠ b := fun h => hb.1 h.symm
    by_cases h : key a ∈ seen
    · simp [dedupOnAux, h, hab, ih _ _ (by simpa using hb.2)]
    · have hnot : key a ∉ (b :: seen) := by simp [h, hab]
      simp [dedupOnAux, h, hnot]
      calc dedupOnAux key (key a :: b :: seen) rest
          = dedupOnAux key (b :: key a :: seen) rest := by
            refine dedupOnAux_congr key rest _ _ ?_
            intro x; constructor <;> (intro hx; simp at hx ⊢; tauto)
        _ = dedupOnAux key (key a :: seen) rest := by
            refine ih _ _ ?_
            simpa using hb.2

/-- Deduplication commutes with filtering by a predicate that is constant on
key classes. -/
theorem filter_dedupOnAux {α β : Type} [DecidableEq β] (key : α → β) (p : α → Bool)
    (hp : ∀ a b, key a = key b → p a = p b) :
    ∀ (l : List α) (seen : List β),
      (dedupOnAux key seen l).filter p = dedupOnAux key seen (l.filter p) := by
  intro l
  induction l with
  | nil => intros; rfl
  | cons a rest ih =>
    intro seen
    by_cases h : key a ∈ seen
    · by_cases hpa : p a
      · simp [dedupOnAux, h, List.filter, hpa, ih]
      · simp at hpa
        simp [dedupOnAux, h, List.filter, hpa, ih]
    · by_cases hpa : p a
      · simp [dedupOnAux, h, List.filter, hpa, ih]
      · simp at hpa
        simp [dedupOnAux, h, List.filter, hpa, ih]
        have hrest : key a ∉ (rest.filter p).map key := by
          intro hmem
          simp only [List.mem_map] at hmem
          obtain ⟨x, hx, hx3⟩ := hmem
          have hx1 : p x = true := List.of_mem_filter hx
          have hpx := hp x a hx3
          rw [hx1, hpa] at hpx
          exact Bool.noConfusion hpx
        rw [dedupOnAux_cons_seen key _ _ _ hrest]

/-- Deduplication (first-kept) commutes with filtering by a predicate constant
on key classes.  Used to relate the code's filter-then-dedup order to the
spec's dedup-then-collapse order. -/
theorem filter_dedupOn {α β : Type} [DecidableEq β] (key : α → β) (p : α → Bool)
    (hp : ∀ a b, key a = key b → p a = p b) (l : List α) :
    (dedupOn key l).filter p = dedupOn key (l.filter p) :=
  filter_dedupOnAux key p hp l []

/-! ## The Table / Column abstraction (`AbstractTable` in OwidTable.ts)

A column is its `ColumnSpec` (the TS `AbstractColumn` is only a spec plus a
back-reference to the owning table, which we pass explicitly).  The column
registry (`this.columns : Map<columnSlug, AbstractColumn>`) is an
insertion-ordered map from slug to spec. -/

/-- `ColumnSpec` from OwidTable.ts.  `fn` is the extra field of
`ComputedColumnSpec` (the TS code stores computed specs in the same registry
and casts back to `ComputedColumnSpec` when it needs `fn`).  A
`RowToValueMapper` receives the row and an optional index.  Pure display
metadata fields (`unit`, `shortUnit`, `description`, `coverage`, `datasetId`,
`datasetName`, `source`, `display`), which no claim observes, are omitted. -/
structure ColumnSpec where
  slug : String
  name : Option String := none
  owidVariableId : Option Int := none
  isDailyMeasurement : Bool := false
  isFilterColumn : Bool := false
  annotationsColumnSlug : Option String := none
  fn : Option (Row → Option Nat → Val) := none

/-- `AbstractColumn.name`: `this.spec.name ?? this.spec.slug`. -/
def colName (spec : ColumnSpec) : String := spec.name.getD spec.slug

/-- `AbstractTable`: the row store plus the slug-keyed column registry. -/
structure Table where
  rows : List Row
  columns : List (String × ColumnSpec)

/-- The table constructor branch that receives explicit `columnSpecs`:
each spec is registered under its map key in iteration order. -/
def mkTable (rows : List Row) (columnSpecs : List (String × ColumnSpec)) : Table :=
  { rows := rows
    columns := columnSpecs.foldl (fun m p => jsSet m p.1 p.2) [] }

/-- `deleteColumnBySlug(slug)`: deletes the field from every row.  The TS
body then runs `this.columnNames.delete(slug)` — but `columnNames` is a
`@computed` getter that returns a *freshly constructed* `Set`, so that call
mutates a temporary and leaves the column registry (`this.columns`)
untouched.  The registry therefore survives unchanged here. -/
def deleteColumnBySlug (t : Table) (slug : String) : Table :=
  { t with rows := t.rows.map (fun row => rowDelete row slug) }

/-- `_addComputedColumn(spec)`: registers the spec, then eagerly
materializes `fn(row, index)` into every existing row under the slug. -/
def addComputedColumnRaw (t : Table) (spec : ColumnSpec) : Table :=
  { rows :=
      t.rows.enum.map (fun p =>
        rowSet p.2 spec.slug ((spec.fn.getD (fun _ _ => Val.null)) p.2 (some p.1)))
    columns := jsSet t.columns spec.slug spec }

/-- `addFilterColumn(slug, predicate)`: a computed boolean column flagged
`isFilterColumn` (the predicate ignores the index argument). -/
def addFilterColumn (t : Table) (slug : String) (predicate : Row → Bool) : Table :=
  addComputedColumnRaw t
    { slug := slug, isFilterColumn := true
      fn := some (fun row _ => Val.bool (predicate row)) }

/-- `filterColumnSlugs`: slugs of the registered filter columns, in registry
order. -/
def filterColumnSlugs (t : Table) : List String :=
  ((t.columns.map (fun p => p.2)).filter (fun c => c.isFilterColumn)).map (fun c => c.slug)

/-- The filter functions paired with their slugs, as fetched by
`unfilteredRows` (`(columnsBySlug.get(slug)!.spec as ComputedColumnSpec).fn`;
a filter registered without `fn` would make the TS code call `undefined`,
which cannot arise through `addFilterColumn`). -/
def filterFnsWithSlugs (t : Table) : List (String × (Row → Option Nat → Val)) :=
  (filterColumnSlugs t).map (fun slug =>
    (slug, ((jsGet t.columns slug).bind (fun c => c.fn)).getD (fun _ _ => Val.null)))

/-- The per-row body of `unfilteredRows`' `filterFn`: fold over the filter
slugs with `Array.every` short-circuiting, lazily materializing
`row[slug] = fn(row)` when the cached value is `undefined`, and testing the
truthiness of the (possibly just written) cell.  Returns the mutated row and
the conjunction. -/
def applyFilters (filters : List (String × (Row → Option Nat → Val))) (row : Row) :
    Row × Bool :=
  filters.foldl
    (fun acc sf =>
      if acc.2 = false then acc
      else
        let row := acc.1
        let row' :=
          if rowGet row sf.1 = none then rowSet row sf.1 (sf.2 row none) else row
        (row', jsTruthyOpt (rowGet row' sf.1)))
    (row, true)

/-- `unfilteredRows`: with no filter columns, the raw row store; otherwise the
rows passing the conjunction of all filter columns (rows are mutated in place
by the lazy materialization, so the returned rows carry the caches). -/
def unfilteredRows (t : Table) : List Row :=
  let filters := filterFnsWithSlugs t
  if filters.isEmpty then t.rows
  else (t.rows.map (applyFilters filters)).filterMap
    (fun p => if p.2 then some p.1 else none)

/-- `columnNames`: `new Set(columnsAsArray.map(col => col.name))`, i.e. the
first-occurrence-deduplicated list of column *names* in registration order. -/
def columnNames (t : Table) : List String :=
  dedupFirst ((t.columns.map (fun p => p.2)).map colName)

/-- A cell of the delimited export: `row[cName] ?? ""` followed by JS
`Array.join` string conversion (`null`/`undefined` become `""` through the
nullish coalescing). -/
def cellString (v : Option Val) : String :=
  match v with
  | none => ""
  | some .null => ""
  | some v => jsToString v

/-- `toDelimited(delimiter)` (without the optional `rowLimit`, which no claim
exercises): header = column names joined; body = one line per row, each cell
looked up in the row *by column name*. -/
def toDelimited (t : Table) (delimiter : String) : String :=
  let cols := columnNames t
  let header := String.intercalate delimiter cols ++ "\n"
  let body :=
    String.intercalate "\n"
      (t.rows.map (fun row =>
        String.intercalate delimiter (cols.map (fun c => cellString (rowGet row c)))))
  header ++ body

/-- `ChartConfig.updatePopulationFilter` (ChartConfig.tsx).  `populationMap`
is imported data (not in `src/`), passed here as a lookup function; the TS
`populationMap[name]` lookup keys on the row's `entityName` string.
`!minPop` is JS-falsy for `undefined` and `0`; `!pop || pop >= minPop` is
true when the population is missing, zero, or at least the threshold. -/
def updatePopulationFilter (popMap : String → Option Int) (minPop : Option Int)
    (t : Table) : Table :=
  let falsy := match minPop with | none => true | some m => m = 0
  if falsy then deleteColumnBySlug t "pop_filter"
  else
    addFilterColumn t "pop_filter" (fun row =>
      let pop :=
        match rowGet row "entityName" with
        | some (.str s) => popMap s
        | _ => none
      match minPop, pop with
      | _, none => true
      | none, _ => true
      | some m, some p => p = 0 ∨ p ≥ m)

/-! ### Registry lemmas -/

/-- `jsSet` with a fresh key appends the binding. -/
theorem jsSet_of_not_mem {κ α : Type} [DecidableEq κ] (m : List (κ × α)) (k : κ) (v : α)
    (h : jsGet m k = none) : jsSet m k v = m ++ [(k, v)] := by
  induction m with
  | nil => rfl
  | cons hd tl ih =>
    obtain ⟨k0, v0⟩ := hd
    by_cases hk : k = k0
    · subst hk; simp [jsGet] at h
    · simp [jsGet, hk] at h
      have hk0 : ¬ k0 = k := fun he => hk he.symm
      simp [jsSet, hk0, ih h]

/-- `jsGet` over an append searches the left part first. -/
theorem jsGet_append {κ α : Type} [DecidableEq κ] (m m' : List (κ × α)) (k : κ) :
    jsGet (m ++ m') k = match jsGet m k with | some v => some v | none => jsGet m' k := by
  induction m with
  | nil => simp [jsGet]
  | cons hd tl ih =>
    obtain ⟨k0, v0⟩ := hd
    by_cases hk : k = k0 <;> simp [jsGet, hk, ih]

/-- Mapping over `enum` with a function that ignores the index is a plain map. -/
theorem enum_map_ignore_fst {α β : Type} (l : List α) (g : α → β) :
    l.enum.map (fun p => g p.2) = l.map g := by
  have h1 : l.enum.map (fun p => g p.2) = (l.enum.map Prod.snd).map g := by
    rw [List.map_map]; rfl
  rw [h1, List.enum_map_snd]

/-- A first-occurrence deduplication of a duplicate-free list is the identity. -/
theorem dedupOnAux_of_nodup {α : Type} [DecidableEq α] :
    ∀ (l : List α) (seen : List α), (∀ x ∈ l, x ∉ seen) → l.Nodup →
      dedupOnAux (id : α → α) seen l = l := by
  intro l
  induction l with
  | nil => intros; rfl
  | cons a rest ih =>
    intro seen hdis hnd
    have ha : a ∉ seen := hdis a (List.mem_cons_self a rest)
    have hnd' := List.nodup_cons.mp hnd
    simp only [dedupOnAux, id]
    rw [if_neg ha]
    congr 1
    refine ih _ ?_ hnd'.2
    intro x hx
    simp only [List.mem_cons]
    push_neg
    exact ⟨fun he => hnd'.1 (he ▸ hx), hdis x (List.mem_cons_of_mem a hx)⟩

theorem dedupFirst_of_nodup {α : Type} [DecidableEq α] (l : List α) (h : l.Nodup) :
    dedupFirst l = l :=
  dedupOnAux_of_nodup l [] (by intro x _ hx; simp at hx) h

/-- `filterMap` of an "if" over a mapped list, when the test on the image is
computed by a test on the preimage, is a `filter`-then-`map`. -/
theorem filterMap_if_map {α β : Type} (l : List α) (f : α → β) (c : α → Bool)
    (q : β → Bool) (h : ∀ a ∈ l, q (f a) = c a) :
    (l.map f).filterMap (fun x => if q x then some x else none) = (l.filter c).map f := by
  induction l with
  | nil => rfl
  | cons a rest ih =>
    have ha := h a (List.mem_cons_self a rest)
    have hrest : ∀ a ∈ rest, q (f a) = c a :=
      fun x hx => h x (List.mem_cons_of_mem a hx)
    by_cases hc : c a
    · simp [List.filterMap_cons, List.filter_cons, ha, hc, ih hrest]
    · simp at hc
      simp [List.filterMap_cons, List.filter_cons, ha, hc, ih hrest]

/-- Filtering a list of `(value, keep)` pairs on the flag and keeping the
values is a `filter`-then-`map` of the underlying list. -/
theorem filterMap_pair {α β : Type} (l : List α) (f : α → β) (c : α → Bool) :
    (l.map (fun a => (f a, c a))).filterMap (fun p => if p.2 then some p.1 else none)
      = (l.filter c).map f := by
  induction l with
  | nil => rfl
  | cons a rest ih =>
    by_cases hc : c a
    · simp [List.filterMap_cons, List.filter_cons, hc, ih]
    · simp at hc
      simp [List.filterMap_cons, List.filter_cons, hc, ih]

/-! ### Behaviour of `addFilterColumn` and `unfilteredRows` -/

/-- The spec that `addFilterColumn` registers. -/
def filterSpec (slug : String) (p : Row → Bool) : ColumnSpec :=
  { slug := slug, isFilterColumn := true
    fn := some (fun row _ => Val.bool (p row)) }

theorem addFilterColumn_rows (t : Table) (slug : String) (p : Row → Bool) :
    (addFilterColumn t slug p).rows
      = t.rows.map (fun r => rowSet r slug (Val.bool (p r))) := by
  have h := enum_map_ignore_fst t.rows (fun r => rowSet r slug (Val.bool (p r)))
  simpa [addFilterColumn, addComputedColumnRaw] using h

theorem addFilterColumn_columns (t : Table) (slug : String) (p : Row → Bool) :
    (addFilterColumn t slug p).columns = jsSet t.columns slug (filterSpec slug p) := rfl

theorem filterColumnSlugs_append_one (t : Table) (slug : String) (p : Row → Bool)
    (hnofilt : ∀ q ∈ t.columns, q.2.isFilterColumn = false)
    (hnew : jsGet t.columns slug = none) :
    filterColumnSlugs (addFilterColumn t slug p) = [slug] := by
  rw [filterColumnSlugs, addFilterColumn_columns, jsSet_of_not_mem _ _ _ hnew]
  rw [List.map_append, List.filter_append]
  have h0 : (t.columns.map (fun q => q.2)).filter (fun c => c.isFilterColumn) = [] := by
    rw [List.filter_eq_nil_iff]
    intro c hc
    simp only [List.mem_map] at hc
    obtain ⟨q, hq, hqc⟩ := hc
    rw [← hqc, hnofilt q hq]
    simp
  rw [h0]
  rfl

/-- After adding one filter column to a filter-free table, `unfilteredRows`
(with the cached filter field stripped back off) is exactly the rows passing
the predicate. -/
theorem unfilteredRows_addFilterColumn (t : Table) (slug : String) (p : Row → Bool)
    (hnofilt : ∀ q ∈ t.columns, q.2.isFilterColumn = false)
    (hnew : jsGet t.columns slug = none)
    (hfresh : ∀ row ∈ t.rows, rowGet row slug = none) :
    (unfilteredRows (addFilterColumn t slug p)).map (fun r => rowDelete r slug)
      = t.rows.filter p := by
  have hslugs := filterColumnSlugs_append_one t slug p hnofilt hnew
  have hcols := addFilterColumn_columns t slug p
  have hfns : filterFnsWithSlugs (addFilterColumn t slug p)
      = [(slug, fun row _ => Val.bool (p row))] := by
    rw [filterFnsWithSlugs, hslugs, hcols]
    simp only [List.map_cons, List.map_nil]
    rw [jsGet_jsSet]
    simp [filterSpec]
  have happ : ∀ r : Row,
      applyFilters [(slug, fun row _ => Val.bool (p row))]
        (rowSet r slug (Val.bool (p r)))
      = (rowSet r slug (Val.bool (p r)), p r) := by
    intro r
    have hget : rowGet (rowSet r slug (Val.bool (p r))) slug = some (Val.bool (p r)) := by
      rw [rowGet_rowSet]; simp
    simp [applyFilters, hget, jsTruthyOpt, jsTruthy]
  rw [unfilteredRows, hfns]
  simp only [List.isEmpty_cons, if_neg Bool.false_ne_true]
  rw [addFilterColumn_rows, List.map_map]
  have hcomp :
      (t.rows.map (applyFilters [(slug, fun row _ => Val.bool (p row))] ∘
        fun r => rowSet r slug (Val.bool (p r))))
      = t.rows.map (fun r => (rowSet r slug (Val.bool (p r)), p r)) := by
    refine List.map_congr_left ?_
    intro r _
    exact happ r
  rw [hcomp, filterMap_pair]
  rw [List.map_map]
  refine List.map_congr_left ?_ |>.trans (List.map_id _)
  intro r hr
  have hr' : r ∈ t.rows := List.mem_of_mem_filter hr
  exact rowDelete_rowSet r slug _ (hfresh r hr')

theorem base_no_filters (t : Table)
    (hnofilt : ∀ q ∈ t.columns, q.2.isFilterColumn = false) :
    (t.columns.map (fun q => q.2)).filter (fun c => c.isFilterColumn) = [] := by
  rw [List.filter_eq_nil_iff]
  intro c hc
  simp only [List.mem_map] at hc
  obtain ⟨q, hq, hqc⟩ := hc
  rw [← hqc, hnofilt q hq]
  simp

/-- `applyFilters` over two filters whose cells are both cached booleans does
not mutate the row and returns the conjunction (with `Array.every`
short-circuiting). -/
theorem applyFilters_cached_two (s1 s2 : String) (f1 f2 : Row → Option Nat → Val)
    (row : Row) (b1 b2 : Bool)
    (h1 : rowGet row s1 = some (Val.bool b1))
    (h2 : rowGet row s2 = some (Val.bool b2)) :
    applyFilters [(s1, f1), (s2, f2)] row = (row, b1 && b2) := by
  cases b1 <;> cases b2 <;>
    simp [applyFilters, h1, h2, jsTruthyOpt, jsTruthy]

/-- Adding two filter columns to a filter-free table: the row view (with the
two cached filter fields stripped back off) is the conjunction of the two
predicates over the original rows.  `hindep21` says the second predicate does
not read the first filter's cached field. -/
theorem unfilteredRows_two_filters (t : Table) (s1 s2 : String) (p1 p2 : Row → Bool)
    (hslug : s1 ≠ s2)
    (hnofilt : ∀ q ∈ t.columns, q.2.isFilterColumn = false)
    (hnew1 : jsGet t.columns s1 = none) (hnew2 : jsGet t.columns s2 = none)
    (hfresh1 : ∀ row ∈ t.rows, rowGet row s1 = none)
    (hfresh2 : ∀ row ∈ t.rows, rowGet row s2 = none)
    (hindep21 : ∀ r v, p2 (rowSet r s1 v) = p2 r) :
    (unfilteredRows (addFilterColumn (addFilterColumn t s1 p1) s2 p2)).map
        (fun r => rowDelete (rowDelete r s2) s1)
      = t.rows.filter (fun r => p1 r && p2 r) := by
  have hs21 : ¬ s2 = s1 := fun h => hslug h.symm
  have hcols1 : (addFilterColumn t s1 p1).columns
      = t.columns ++ [(s1, filterSpec s1 p1)] := by
    rw [addFilterColumn_columns, jsSet_of_not_mem _ _ _ hnew1]
  have hget2 : jsGet (addFilterColumn t s1 p1).columns s2 = none := by
    rw [hcols1, jsGet_append, hnew2]
    simp [jsGet, hs21]
  have hcols2 : (addFilterColumn (addFilterColumn t s1 p1) s2 p2).columns
      = t.columns ++ [(s1, filterSpec s1 p1)] ++ [(s2, filterSpec s2 p2)] := by
    rw [addFilterColumn_columns, jsSet_of_not_mem _ _ _ hget2, hcols1]
  have hslugs2 : filterColumnSlugs (addFilterColumn (addFilterColumn t s1 p1) s2 p2)
      = [s1, s2] := by
    rw [filterColumnSlugs, hcols2]
    rw [List.map_append, List.map_append, List.filter_append, List.filter_append,
      base_no_filters t hnofilt]
    simp [filterSpec]
  have hfns : filterFnsWithSlugs (addFilterColumn (addFilterColumn t s1 p1) s2 p2)
      = [(s1, fun row _ => Val.bool (p1 row)), (s2, fun row _ => Val.bool (p2 row))] := by
    rw [filterFnsWithSlugs, hslugs2]
    have hg1 : jsGet (addFilterColumn (addFilterColumn t s1 p1) s2 p2).columns s1
        = some (filterSpec s1 p1) := by
      rw [hcols2, jsGet_append, jsGet_append, hnew1]
      simp [jsGet]
    have hg2 : jsGet (addFilterColumn (addFilterColumn t s1 p1) s2 p2).columns s2
        = some (filterSpec s2 p2) := by
      rw [hcols2, jsGet_append, jsGet_append, hnew2]
      simp [jsGet, hs21]
    simp [hg1, hg2, filterSpec]
  have hrows2 : (addFilterColumn (addFilterColumn t s1 p1) s2 p2).rows
      = t.rows.map (fun r =>
          rowSet (rowSet r s1 (Val.bool (p1 r))) s2 (Val.bool (p2 r))) := by
    rw [addFilterColumn_rows, addFilterColumn_rows, List.map_map]
    refine List.map_congr_left ?_
    intro r _
    simp only [Function.comp]
    rw [hindep21]
  have happ : ∀ r : Row,
      applyFilters [(s1, fun row _ => Val.bool (p1 row)),
        (s2, fun row _ => Val.bool (p2 row))]
        (rowSet (rowSet r s1 (Val.bool (p1 r))) s2 (Val.bool (p2 r)))
      = (rowSet (rowSet r s1 (Val.bool (p1 r))) s2 (Val.bool (p2 r)),
          p1 r && p2 r) := by
    intro r
    have hga : rowGet (rowSet (rowSet r s1 (Val.bool (p1 r))) s2 (Val.bool (p2 r))) s1
        = some (Val.bool (p1 r)) := by
      rw [rowGet_rowSet_ne _ _ _ _ hslug, rowGet_rowSet]
      simp
    have hgb : rowGet (rowSet (rowSet r s1 (Val.bool (p1 r))) s2 (Val.bool (p2 r))) s2
        = some (Val.bool (p2 r)) := by
      rw [rowGet_rowSet]
      simp
    exact applyFilters_cached_two s1 s2 _ _ _ _ _ hga hgb
  rw [unfilteredRows, hfns]
  simp only [List.isEmpty_cons, if_neg Bool.false_ne_true]
  rw [hrows2, List.map_map]
  have hcomp :
      (t.rows.map (applyFilters [(s1, fun row _ => Val.bool (p1 row)),
          (s2, fun row _ => Val.bool (p2 row))] ∘
        fun r => rowSet (rowSet r s1 (Val.bool (p1 r))) s2 (Val.bool (p2 r))))
      = t.rows.map (fun r =>
          (rowSet (rowSet r s1 (Val.bool (p1 r))) s2 (Val.bool (p2 r)),
            p1 r && p2 r)) := by
    refine List.map_congr_left ?_
    intro r _
    exact happ r
  rw [hcomp, filterMap_pair, List.map_map]
  refine List.map_congr_left ?_ |>.trans (List.map_id _)
  intro r hr
  have hr' : r ∈ t.rows := List.mem_of_mem_filter hr
  simp only [Function.comp, id]
  have hd2 : rowDelete (rowSet (rowSet r s1 (Val.bool (p1 r))) s2 (Val.bool (p2 r))) s2
      = rowSet r s1 (Val.bool (p1 r)) := by
    refine rowDelete_rowSet _ _ _ ?_
    rw [rowGet_rowSet_ne _ _ _ _ hs21]
    exact hfresh2 r hr'
  rw [hd2]
  exact rowDelete_rowSet r s1 _ (hfresh1 r hr')

/-- List intersection of two filters of the same list is the filter by the
conjunction. -/
theorem inter_filter_filter {α : Type} [BEq α] [LawfulBEq α] (l : List α) (p q : α → Bool) :
    (l.filter p) ∩ (l.filter q) = l.filter (fun a => p a && q a) := by
  rw [List.inter_def]
  have h1 : (l.filter p).filter (fun x => List.elem x (l.filter q))
      = (l.filter p).filter q := by
    refine List.filter_congr ?_
    intro a ha
    have ha' : a ∈ l := List.mem_of_mem_filter ha
    by_cases hq : q a <;> simp [List.elem_eq_mem, List.mem_filter, ha', hq]
  rw [h1, List.filter_filter]
  refine List.filter_congr ?_
  intro a _
  rw [Bool.and_comm]

/-! ## The smoothing engine

`computeRollingAverage` and `insertMissingValuePlaceholders` live in
`charts/Util`, which is not under `src/` (only their unit tests are, in
`src/unnamed/part_001`); they are modelled from the spec below.  The grouped
driver `computeRollingAveragesForEachGroup` *is* in `src/unnamed/part_000`
and is embedded faithfully. -/

/-- An element of a smoothing input/output sequence: a number, an explicit
recorded gap (JS `null`), or a structurally absent reading (JS `undefined`). -/
inductive RVal where
  | val (q : ℚ)
  | null
  | undefined
  deriving DecidableEq

/-- Window alignment mode. -/
inductive Align where
  | right
  | center
  deriving DecidableEq

/-- Modelled from the spec: `computeRollingAverage` (charts/Util, absent from
`src/`).  "`right` = window ends at current index; `center` = window centered
on current index, asymmetric by one element when window size is even"; a
`null` or `undefined` input propagates to the output at its own position and
is excluded from the average of any window that contains it, but the window
still advances positionally; window size 1 is the identity transform.
Matches every test case in `src/unnamed/part_001`. -/
def computeRollingAverage (numbers : List RVal) (windowSize : Nat) (align : Align) :
    List RVal :=
  (List.range numbers.length).map (fun i =>
    match (numbers.get? i).getD .undefined with
    | .undefined => .undefined
    | .null => .null
    | .val _ =>
      let expand := windowSize - 1
      let expandLeft := match align with | .right => expand | .center => (expand + 1) / 2
      let expandRight := match align with | .right => 0 | .center => expand / 2
      let lo := i - expandLeft
      let hi := min (i + expandRight) (numbers.length - 1)
      let vals :=
        ((List.range (hi + 1 - lo)).map (fun k => (numbers.get? (lo + k)).getD .undefined)).filterMap
          (fun o => match o with | .val q => some q | _ => none)
      .val (vals.sum / vals.length))

/-- Modelled from the spec: `insertMissingValuePlaceholders` (charts/Util,
absent from `src/`): insert one explicit `null` placeholder for every missing
integer time step between consecutive observations.  Matches the test case in
`src/unnamed/part_001`. -/
def insertMissingValuePlaceholders (values : List RVal) (times : List Int) :
    List RVal :=
  match values, times with
  | [], _ => []
  | v :: vs, t1 :: t2 :: ts =>
      v :: (List.replicate (t2 - t1 - 1).toNat RVal.null
        ++ insertMissingValuePlaceholders vs (t2 :: ts))
  | v :: vs, _ => v :: vs

/-- The time cell of a row, as fed by `computeRollingAveragesForEachGroup`
into `insertMissingValuePlaceholders` (`currentRows.map(row => row[dateColName])`).
The call sites store integer day/year values; other shapes are JS type
confusion that no claim exercises. -/
def rowTime (dateColName : String) (row : Row) : Int :=
  match rowGet row dateColName with
  | some (.num n) => n
  | _ => 0

/-- One loop step of `computeRollingAveragesForEachGroup`: state is
`(currentGroup, currentRows, groups)`.  On a group-name change the pending
rows are averaged (placeholder-aware) and flushed. -/
def rollingGroupStep (valueAccessor : Row → RVal) (groupColName dateColName : String)
    (rollingAverage : Nat)
    (acc : Option Val × List Row × List (List RVal)) (row : Row) :
    Option Val × List Row × List (List RVal) :=
  let groupName := rowGet row groupColName
  if acc.1 ≠ groupName then
    let averages :=
      (computeRollingAverage
        (insertMissingValuePlaceholders
          (acc.2.1.map valueAccessor)
          (acc.2.1.map (rowTime dateColName)))
        rollingAverage .right).filter (fun v => v ≠ RVal.null)
    (groupName, [row], acc.2.2 ++ [averages])
  else
    (acc.1, acc.2.1 ++ [row], acc.2.2)

/-- `computeRollingAveragesForEachGroup` (src/unnamed/part_000, lines 29-59).
The TS loop runs `for (let i = 0; i < rows.length; i++)`, so `row` is always
defined, the `if (!row) break` branch is dead, and the loop exits without
flushing the final `currentRows` group; the fold below mirrors that exactly.
(On an empty input the TS code throws reading `rows[0][groupColName]`; no
caller reaches that case and no claim exercises it.) -/
def computeRollingAveragesForEachGroup (rows : List Row) (valueAccessor : Row → RVal)
    (groupColName dateColName : String) (rollingAverage : Nat) : List RVal :=
  match rows with
  | [] => []
  | first :: _ =>
    let init : Option Val × List Row × List (List RVal) :=
      (rowGet first groupColName, [], [])
    let final :=
      rows.foldl
        (rollingGroupStep valueAccessor groupColName dateColName rollingAverage) init
    final.2.2.flatten

/-! ## Legacy ingestion (`OwidTable.fromLegacy`)

ISO date strings are modelled by their day numbers (an injective encoding:
two ISO date strings are equal iff they denote the same day).
`slugify` lives in `charts/Util`, outside `src/`, so it is passed as a
parameter; every theorem below holds for an arbitrary `slugify`. -/

/-- `EPOCH_DATE` from `settings` ("2020-01-21", per the `formatDay` tests in
src/unnamed/part_001), as a day number (days since 1970-01-01). -/
def EPOCH_DATE : Int := 18282

/-- Modelled from the spec: `diffDateISOStringInDays` (charts/Util, absent
from `src/`): the whole-day difference between two ISO dates, here given as
day numbers. -/
def diffDateISOStringInDays (a b : Int) : Int := a - b

/-- `EntityMeta` (name/code of one entity). -/
structure EntityMeta where
  name : String
  code : String

/-- The display block of a legacy variable (only the fields the ingestion
reads: `yearIsDay`, `zeroDay`, `entityAnnotationsMap`). -/
structure OwidVariableDisplay where
  yearIsDay : Bool := false
  zeroDay : Option Int := none
  entityAnnotationsMap : Option String := none

/-- A legacy wire-format variable (fields the ingestion reads; pure display
metadata that no claim observes is omitted, as in `ColumnSpec`). -/
structure OwidVariable where
  id : Int
  name : String
  entities : List Int
  years : List Int
  values : List Val
  display : OwidVariableDisplay

/-- The legacy wire format: `variables` in JSON-object iteration order, and
the entity lookup `entityKey` (total here: the TS code throws on an unknown
entity id, which no claim exercises). -/
structure OwidVariablesAndEntityKey where
  variableList : List OwidVariable  -- `variables` in TS; renamed (Lean keyword)
  entityKey : Int → EntityMeta

/-- `convertLegacyYears`: re-base daily offsets from the variable's `zeroDay`
onto `EPOCH_DATE`. -/
def convertLegacyYears (years : List Int) (zeroDay : Int) : List Int :=
  let diff := diffDateISOStringInDays zeroDay EPOCH_DATE
  years.map (fun y => y + diff)

/-- `columnSpecFromLegacyVariable` (metadata-only fields omitted, cf.
`ColumnSpec`). -/
def columnSpecFromLegacyVariable (slugify : String → String) (v : OwidVariable) :
    ColumnSpec :=
  { slug := toString v.id ++ "-" ++ slugify v.name
    name := some v.name
    isDailyMeasurement := v.display.yearIsDay
    owidVariableId := some v.id }

/-- `makeAnnotationColumnSlug`. -/
def makeAnnotationColumnSlug (columnSlug : String) : String :=
  columnSlug ++ "-annotations"

/-- `annotationsToMap`: split the side-channel on newlines, each line on the
first colon(s); trim; last line wins per entity key. -/
def annotationsToMap (annotations : String) : List (String × String) :=
  (annotations.splitOn "\n").foldl
    (fun m line =>
      match (line.splitOn ":").map (fun w => w.trim) with
      | [] => m  -- unreachable: `splitOn` always returns a nonempty list
      | key :: words => jsSet m key (String.intercalate ":" words))
    []

/-- JS truthiness of `variable.display.entityAnnotationsMap` in
`if (variable.display.entityAnnotationsMap)`. -/
def hasAnnotations (v : OwidVariable) : Bool :=
  match v.display.entityAnnotationsMap with
  | some ann => ann ≠ ""
  | none => false

/-- The `years` array actually emitted for a variable: shifted by
`convertLegacyYears` when `yearIsDay` and a `zeroDay` different from
`EPOCH_DATE` is declared, otherwise the raw array. -/
def legacyEmittedYears (v : OwidVariable) : List Int :=
  if v.display.yearIsDay ∧ v.display.zeroDay ≠ none ∧
      v.display.zeroDay ≠ some EPOCH_DATE
  then convertLegacyYears v.years (v.display.zeroDay.getD 0)
  else v.years

/-- The rows built for one legacy variable (`variable.values.map(...)`).
The object-literal field order is: time column, value column, `entityName`,
`entityId`, `entityCode`, then the annotation field when the variable carries
annotations (the TS code assigns `annotationMap.get(entityName)`, which for an
unannotated entity stores `undefined` — observationally an absent field, so it
is omitted here). -/
def legacyRowsForVariable (entityKey : Int → EntityMeta) (slugify : String → String)
    (v : OwidVariable) : List Row :=
  let entityNames := v.entities.map (fun id => (entityKey id).name)
  let entityCodes := v.entities.map (fun id => (entityKey id).code)
  let columnSpec := columnSpecFromLegacyVariable slugify v
  let timeColumnName := if columnSpec.isDailyMeasurement then "day" else "year"
  let years := legacyEmittedYears v
  let annSlug := makeAnnotationColumnSlug columnSpec.slug
  let annMap := annotationsToMap (v.display.entityAnnotationsMap.getD "")
  v.values.enum.map (fun p =>
    let entityName := entityNames.getD p.1 ""
    let base : Row :=
      [(timeColumnName, Val.num ((years.get? p.1).getD 0)),
       (columnSpec.slug, p.2),
       ("entityName", Val.str entityName),
       ("entityId", Val.num ((v.entities.get? p.1).getD 0)),
       ("entityCode", Val.str (entityCodes.getD p.1 ""))]
    if hasAnnotations v then
      match jsGet annMap entityName with
      | some a => base ++ [(annSlug, Val.str a)]
      | none => base
    else base)

/-- The column-spec registry contribution of one legacy variable, in TS
execution order: the time column, the value column (whose stored spec object
is later mutated with `annotationsColumnSlug` when annotations exist), and —
only when annotations exist — the annotations column. -/
def legacySpecsForVariable (slugify : String → String) (v : OwidVariable)
    (specs : List (String × ColumnSpec)) : List (String × ColumnSpec) :=
  let columnSpec := columnSpecFromLegacyVariable slugify v
  let timeSlug : String := if columnSpec.isDailyMeasurement then "day" else "year"
  let specs1 := jsSet specs timeSlug { slug := timeSlug }
  if hasAnnotations v then
    let annSlug := makeAnnotationColumnSlug columnSpec.slug
    jsSet (jsSet specs1 columnSpec.slug
        { columnSpec with annotationsColumnSlug := some annSlug })
      annSlug { slug := annSlug }
  else jsSet specs1 columnSpec.slug columnSpec

/-- The three identity column specs registered before the variable loop. -/
def baseLegacySpecs : List (String × ColumnSpec) :=
  jsSet (jsSet (jsSet [] "entityName" { slug := "entityName" })
    "entityId" { slug := "entityId" }) "entityCode" { slug := "entityCode" }

/-- The `groupBy` key: `(row.year !== undefined ? "year:"+row.year :
"day:"+row.day) + " " + row.entityName` (JS string concatenation). -/
def legacyGroupKey (row : Row) : String :=
  (match rowGet row "year" with
   | some y => "year:" ++ jsToString y
   | none => "day:" ++ jsToStringOpt (rowGet row "day"))
  ++ " " ++ jsToStringOpt (rowGet row "entityName")

/-- `Object.assign({}, ...group)`: merge rows by field union, later rows
winning on collision, first-writer key order. -/
def mergeRows (rs : List Row) : Row :=
  rs.foldl (fun acc r => r.foldl (fun acc2 kv => rowSet acc2 kv.1 kv.2) acc) []

/-- `OwidTable.fromLegacy`: build one row per (value, entity, time) triple of
each variable, group across variables by `(time, entityName)` in
first-occurrence order (lodash `groupBy` + `Object.keys`), merge each group,
and construct the table with the accumulated spec registry. -/
def fromLegacy (slugify : String → String) (json : OwidVariablesAndEntityKey) : Table :=
  let specs := json.variableList.foldl
    (fun s v => legacySpecsForVariable slugify v s) baseLegacySpecs
  let rows := json.variableList.foldl
    (fun rs v => rs ++ legacyRowsForVariable json.entityKey slugify v) []
  let keys := dedupFirst (rows.map legacyGroupKey)
  let joinedRows := keys.map (fun k => mergeRows (rows.filter (fun r => legacyGroupKey r = k)))
  mkTable joinedRows specs

/-! ## The derivation graph (`ChartData` / `ChartConfig`)

The reactive layer (mobx `@computed`) only memoizes; every derived value is a
pure function of the configuration and the table, embedded directly as such.
Reading a derived value therefore cannot modify the state by construction. -/

/-- `ChartDimension` (a persisted dimension: property + variable id; display
overrides are not read by any claim). -/
structure ChartDimension where
  property : String
  variableId : Int
  deriving DecidableEq

/-- `EntitySelection` (ChartConfig.tsx): one persisted selection entry.
`entityId` is the raw stored value (`Option Val`, since the selection setter
can store the result of a `Map.get`); `index` is the dimension index. -/
structure EntitySelection where
  entityId : Option Val
  index : Nat
  color : Option String := none
  deriving DecidableEq

/-- The slice of `ChartConfigProps` the claims read. -/
structure ChartProps where
  selectedData : List EntitySelection := []
  dimensions : List ChartDimension := []
  addCountryMode : Option String := none

/-- The chart state: persisted props + the ingested table. -/
structure ChartState where
  props : ChartProps
  table : Table

/-- `ChartConfig.addCountryMode`: `this.props.addCountryMode || "add-country"`
(JS `||`: the empty string also falls back). -/
def addCountryMode (cfg : ChartState) : String :=
  match cfg.props.addCountryMode with
  | some m => if m = "" then "add-country" else m
  | none => "add-country"

/-- `OwidTable.columnsByOwidVarId`: keyed by `spec.owidVariableId ?? index`,
where `index` is the column's position in the registry iteration. -/
def columnsByOwidVarId (t : Table) : List (Int × ColumnSpec) :=
  ((t.columns.map (fun p => p.2)).enum).foldl
    (fun m p => jsSet m (p.2.owidVariableId.getD (Int.ofNat p.1)) p.2) []

/-- `ChartData.loadingVarIds`: configured variable ids with no resolved
column. -/
def loadingVarIds (cfg : ChartState) : List Int :=
  (cfg.props.dimensions.map (fun d => d.variableId)).filter
    (fun id => ¬ jsHas (columnsByOwidVarId cfg.table) id)

/-- `ChartData.isReady`. -/
def isReady (cfg : ChartState) : Bool := (loadingVarIds cfg).isEmpty

/-- `ChartDimensionWithOwidVariable`: the dimension index, the persisted
dimension, and the resolved column. -/
structure FilledDimension where
  index : Nat
  props : ChartDimension
  column : ColumnSpec

/-- `ChartData.filledDimensions`: empty while not ready; otherwise one
resolved dimension per configured dimension.  The TS `get(...)!` non-null
assertion is modelled with an inert default (readiness guarantees the lookup
succeeds, which the C1 theorem proves). -/
def filledDimensions (cfg : ChartState) : List FilledDimension :=
  if ¬ isReady cfg then []
  else
    cfg.props.dimensions.enum.map (fun p =>
      { index := p.1, props := p.2
        column := (jsGet (columnsByOwidVarId cfg.table) p.2.variableId).getD
          { slug := "" } })

/-- `ChartData.primaryDimensions`: the `y`-property resolved dimensions. -/
def primaryDimensions (cfg : ChartState) : List FilledDimension :=
  (filledDimensions cfg).filter (fun d => d.props.property = "y")

/-- `AbstractColumn.rows`: the unfiltered rows in which this column's cell is
defined. -/
def colRows (t : Table) (spec : ColumnSpec) : List Row :=
  (unfilteredRows t).filter (fun row => rowGet row spec.slug ≠ none)

/-- `AbstractColumn.entityNames` (raw `row.entityName` values). -/
def colEntityNames (t : Table) (spec : ColumnSpec) : List (Option Val) :=
  (colRows t spec).map (fun row => rowGet row "entityName")

/-- `AbstractColumn.entityNamesUniq`, as iterated by
`ChartDimensionWithOwidVariable.entityNamesUniq` (`Array.from(Set)`:
first-occurrence order). -/
def colEntityNamesUniq (t : Table) (spec : ColumnSpec) : List (Option Val) :=
  dedupFirst (colEntityNames t spec)

/-- `OwidTable.entityIdToNameMap` (last row wins per id). -/
def entityIdToNameMap (t : Table) : List (Option Val × Option Val) :=
  t.rows.foldl
    (fun m row => jsSet m (rowGet row "entityId") (rowGet row "entityName")) []

/-- `OwidTable.entityNameToIdMap` (last row wins per name). -/
def entityNameToIdMap (t : Table) : List (Option Val × Option Val) :=
  t.rows.foldl
    (fun m row => jsSet m (rowGet row "entityName") (rowGet row "entityId")) []

/-- `Map.get` on the entity maps, collapsing "missing key" and "stored
`undefined`" exactly as a JS caller observes. -/
def mapGetU (m : List (Option Val × Option Val)) (k : Option Val) : Option Val :=
  (jsGet m k).getD none

/-- `ChartData.makeEntityDimensionKey`. -/
def makeEntityDimensionKey (entityName : String) (dimensionIndex : Nat) : String :=
  entityName ++ "_" ++ toString dimensionIndex

/-- The filter callback of `ChartData.selectionData`, faithful to the three
early-return checks: the dimension must exist, the entity must resolve (JS
truthiness of the `Map.get` result) and appear in the dimension's entity set,
and in "change-country" mode the entry must carry the entity id of the last
persisted entry (`lastOfNonEmptyArray` — the list is nonempty whenever the
callback runs, so the `none` fallback below is inert). -/
def validSelection (cfg : ChartState) (sel : EntitySelection) : Bool :=
  match (primaryDimensions cfg).get? sel.index with
  | none => false
  | some dimension =>
    let entityName := mapGetU (entityIdToNameMap cfg.table) sel.entityId
    if ¬ jsTruthyOpt entityName then false
    else if ¬ (colEntityNamesUniq cfg.table dimension.column).contains entityName then
      false
    else if addCountryMode cfg = "change-country" ∧
        sel.entityId ≠ (match cfg.props.selectedData.getLast? with
          | some l => l.entityId
          | none => sel.entityId) then false
    else true

/-- One element of `ChartData.selectionData`. -/
structure SelectionDatum where
  entityDimensionKey : String
  color : Option String
  deriving DecidableEq

/-- `ChartData.selectionData`: validity filter, `uniqWith` on
(entityId, index), then key construction (a JS template literal on the raw
`Map.get` result). -/
def selectionData (cfg : ChartState) : List SelectionDatum :=
  let validSelections := cfg.props.selectedData.filter (validSelection cfg)
  let deduped := dedupOn (fun s => (s.entityId, s.index)) validSelections
  deduped.map (fun sel =>
    { entityDimensionKey :=
        makeEntityDimensionKey
          (jsToStringOpt (mapGetU (entityIdToNameMap cfg.table) sel.entityId)) sel.index
      color := sel.color })

/-- `ChartData.selectedKeys` (getter). -/
def selectedKeys (cfg : ChartState) : List String :=
  (selectionData cfg).map (fun d => d.entityDimensionKey)

/-- `ChartData.keyColors`: the selection data's truthy colors, keyed by
entity-dimension key (`if (d.color)` skips `undefined` and `""`). -/
def keyColors (cfg : ChartState) : List (String × String) :=
  (selectionData cfg).foldl
    (fun m d =>
      match d.color with
      | some c => if c ≠ "" then jsSet m d.entityDimensionKey c else m
      | none => m)
    []

/-- `EntityDimensionInfo` (the fields claims read; the label fields and the
`dimension` back-reference are not observed by any claim and are omitted). -/
structure EntityDimensionInfo where
  entityDimensionKey : String
  entityId : Option Val
  entity : Option Val
  index : Nat
  deriving DecidableEq

/-- `ChartData.entityDimensionMap`: empty while not ready; otherwise one
entry per (primary dimension, entity of that dimension). -/
def entityDimensionMap (cfg : ChartState) : List (String × EntityDimensionInfo) :=
  if ¬ isReady cfg then []
  else
    (primaryDimensions cfg).enum.foldl
      (fun m p =>
        (colEntityNamesUniq cfg.table p.2.column).foldl
          (fun m2 entityName =>
            let key := makeEntityDimensionKey (jsToStringOpt entityName) p.1
            jsSet m2 key
              { entityDimensionKey := key
                entityId := mapGetU (entityNameToIdMap cfg.table) entityName
                entity := entityName
                index := p.1 })
          m)
      []

/-- `ChartData.lookupKey`; `none` models the thrown "Unknown data key"
error. -/
def lookupKey (cfg : ChartState) (key : String) : Option EntityDimensionInfo :=
  jsGet (entityDimensionMap cfg) key

/-- The `selectedKeys` setter: a no-op while not ready; otherwise each key is
resolved through `lookupKey` (propagating its failure) and the persisted
selection is replaced wholesale. -/
def setSelectedKeys (cfg : ChartState) (keys : List String) : Option ChartState :=
  if ¬ isReady cfg then some cfg
  else
    (keys.mapM (fun key =>
      (lookupKey cfg key).map (fun meta =>
        ({ entityId := mapGetU (entityNameToIdMap cfg.table) meta.entity
           index := meta.index
           color := jsGet (keyColors cfg) key } : EntitySelection)))).map
      (fun selection =>
        { cfg with props := { cfg.props with selectedData := selection } })

/-- `ChartData.setKeyColor`: look the key up, deep-copy the persisted
selection, set the color of every entry matching the key's
(entityId, index), and store the copy back. -/
def setKeyColor (cfg : ChartState) (key : String) (color : Option String) :
    Option ChartState :=
  (lookupKey cfg key).map (fun meta =>
    let selectedData := cfg.props.selectedData.map (fun d =>
      if d.entityId = meta.entityId ∧ d.index = meta.index
      then { d with color := color } else d)
    { cfg with props := { cfg.props with selectedData := selectedData } })

/-! ## Claim C2: `deleteColumnBySlug` and the population-filter round trip -/

/-- Population lookup for the C2 scenario: only entity "B" has a recorded
population (100). -/
def c2PopMap : String → Option Int := fun s => if s = "B" then some 100 else none

/-- Two rows, one column, no filters. -/
def c2Table0 : Table :=
  mkTable [[("entityName", Val.str "A")], [("entityName", Val.str "B")]]
    [("entityName", { slug := "entityName" })]

/-- `minPopulationFilter = 1000` adds the `pop_filter` column ("B" fails). -/
def c2Table1 : Table := updatePopulationFilter c2PopMap (some 1000) c2Table0

/-- `minPopulationFilter = undefined` runs `deleteColumnBySlug "pop_filter"`. -/
def c2Table2 : Table := updatePopulationFilter c2PopMap none c2Table1

/-- **C2, code bug.**  The claim says `deleteColumnBySlug(s)` removes the
column registered under `s` from the registry and strips the field from every
row, so that after `minPopulationFilter = undefined` the unfiltered row count
is restored.  The code strips the row fields (last conjunct) but runs
`this.columnNames.delete(slug)` on a freshly computed `Set`, leaving the
registry entry in place (fourth conjunct); `unfilteredRows` then lazily
re-materializes the stale predicate, so of the 2 original rows only 1 is
visible (first conjunct) instead of the 2 the claim requires. -/
theorem c2_deleteColumnBySlug_leaves_registry :
    (unfilteredRows c2Table2).length = 1 ∧
    c2Table0.rows.length = 2 ∧
    (unfilteredRows c2Table0).length = 2 ∧
    jsHas c2Table2.columns "pop_filter" = true ∧
    (∀ row ∈ c2Table2.rows, rowGet row "pop_filter" = none) := by
  decide

/-! ## Claim C8: the delimited export -/

/-- A table with one column whose display name ("N") differs from its slug
("s") and one row holding value 1 under the slug. -/
def c8Table : Table :=
  mkTable [[("s", Val.num 1)]] [("s", { slug := "s", name := some "N" })]

/-- **C8, counterexample.**  The claim says each cell holds the row's value
for that column; `toDelimited` looks cells up by column *name*, so the row's
value 1 (stored under the slug, first conjunct) is exported as an empty cell:
the output is `"N\n"` where the claim requires `"N\n1"`. -/
theorem c8_counterexample :
    (c8Table.rows.map (fun r => rowGet r "s")) = [some (Val.num 1)] ∧
    toDelimited c8Table "," = "N\n" := by
  decide

/-- **C8, amended.**  For tables whose columns carry no separate display name
(so name = slug, the auto-detected shape), `toDelimited` produces the header
of column names in registration order joined by the delimiter, then one line
per row in which each cell is the row's value for the column and every
missing value renders as the empty string. -/
theorem c8_amended (t : Table) (d : String)
    (hkey : ∀ p ∈ t.columns, (p.2).slug = p.1)
    (hname : ∀ p ∈ t.columns, (p.2).name = none)
    (hnodup : (t.columns.map Prod.fst).Nodup) :
    toDelimited t d
      = String.intercalate d (t.columns.map Prod.fst) ++ "\n"
        ++ String.intercalate "\n"
            (t.rows.map (fun row =>
              String.intercalate d
                ((t.columns.map Prod.fst).map (fun s => cellString (rowGet row s))))) := by
  have hnames : columnNames t = t.columns.map Prod.fst := by
    unfold columnNames
    have hmap : (t.columns.map (fun p => p.2)).map colName = t.columns.map Prod.fst := by
      rw [List.map_map]
      refine List.map_congr_left ?_
      intro p hp
      simp [Function.comp, colName, hname p hp, hkey p hp]
    rw [hmap, dedupFirst_of_nodup _ hnodup]
  simp only [toDelimited, hnames]

/-- A two-column, two-row table with a missing cell, with default names. -/
def c8wTable : Table :=
  mkTable [[("a", Val.num 1), ("b", Val.str "x")], [("a", Val.num 2)]]
    [("a", { slug := "a" }), ("b", { slug := "b" })]

/-- Witness for `c8_amended` at a concrete table. -/
theorem c8_amended_witness :
    (∀ p ∈ c8wTable.columns, (p.2).slug = p.1) ∧
    (∀ p ∈ c8wTable.columns, (p.2).name = none) ∧
    (c8wTable.columns.map Prod.fst).Nodup ∧
    toDelimited c8wTable ","
      = String.intercalate "," (c8wTable.columns.map Prod.fst) ++ "\n"
        ++ String.intercalate "\n"
            (c8wTable.rows.map (fun row =>
              String.intercalate ","
                ((c8wTable.columns.map Prod.fst).map
                  (fun s => cellString (rowGet row s))))) :=
  ⟨by decide, by decide, by decide, c8_amended c8wTable ","
    (by decide) (by decide) (by decide)⟩

/-! ## Claim C3: the grouped rolling average drops its final group -/

/-- The value accessor of the C3 scenario (reads the `v` cell). -/
def c3Value (r : Row) : RVal :=
  match rowGet r "v" with
  | some (.num n) => .val (n : ℚ)
  | _ => .undefined

/-- First row of group "a". -/
def c3r1 : Row := [("g", Val.str "a"), ("day", Val.num 0), ("v", Val.num 1)]

/-- Second row of group "a". -/
def c3r2 : Row := [("g", Val.str "a"), ("day", Val.num 1), ("v", Val.num 2)]

/-- The single row of group "b". -/
def c3r3 : Row := [("g", Val.str "b"), ("day", Val.num 0), ("v", Val.num 5)]

/-- Rows pre-sorted by group: two rows of group "a", then one row of
group "b". -/
def c3Rows : List Row := [c3r1, c3r2, c3r3]

set_option maxHeartbeats 2000000 in
/-- **C3, code bug.**  The claim (and the spec) say every group — including
the last — contributes its averages.  The loop bound `i < rows.length` makes
the `if (!row) break` flush of the final group unreachable, so group "b" is
dropped entirely (first conjunct: only group "a"'s window-1 averages [1, 2]
are returned, not [1, 2, 5]); with a single group the result is empty
(second conjunct) instead of that group's averages [5]. -/
theorem c3_last_group_dropped :
    computeRollingAveragesForEachGroup c3Rows c3Value "g" "day" 1
      = [RVal.val 1, RVal.val 2] ∧
    computeRollingAveragesForEachGroup (c3Rows.drop 2) c3Value "g" "day" 1 = [] := by
  constructor
  · have h1 : rollingGroupStep c3Value "g" "day" 1 (some (Val.str "a"), [], []) c3r1
        = (some (Val.str "a"), [c3r1], []) := by
      rw [rollingGroupStep, show rowGet c3r1 "g" = some (Val.str "a") from rfl,
        if_neg (by decide)]
      rfl
    have h2 : rollingGroupStep c3Value "g" "day" 1 (some (Val.str "a"), [c3r1], []) c3r2
        = (some (Val.str "a"), [c3r1, c3r2], []) := by
      rw [rollingGroupStep, show rowGet c3r2 "g" = some (Val.str "a") from rfl,
        if_neg (by decide)]
      rfl
    have havg : (computeRollingAverage
          (insertMissingValuePlaceholders ([c3r1, c3r2].map c3Value)
            ([c3r1, c3r2].map (rowTime "day"))) 1 .right).filter
          (fun v => v ≠ RVal.null)
        = [RVal.val 1, RVal.val 2] := by
      rw [show [c3r1, c3r2].map c3Value = [RVal.val 1, RVal.val 2] from by decide,
        show [c3r1, c3r2].map (rowTime "day") = [0, 1] from by decide,
        show insertMissingValuePlaceholders [RVal.val 1, RVal.val 2] [0, 1]
          = [RVal.val 1, RVal.val 2] from by decide]
      norm_num [computeRollingAverage, List.range_succ, List.filterMap_cons,
        Function.comp]
      decide
    have h3 : rollingGroupStep c3Value "g" "day" 1
          (some (Val.str "a"), [c3r1, c3r2], []) c3r3
        = (some (Val.str "b"), [c3r3], [[RVal.val 1, RVal.val 2]]) := by
      rw [rollingGroupStep, show rowGet c3r3 "g" = some (Val.str "b") from rfl,
        if_pos (by decide)]
      rw [show ((some (Val.str "a"), [c3r1, c3r2],
          ([] : List (List RVal))) : Option Val × List Row × List (List RVal)).2.1
          = [c3r1, c3r2] from rfl]
      rw [havg]
      rfl
    show (List.foldl (rollingGroupStep c3Value "g" "day" 1)
        (rowGet c3r1 "g", [], []) [c3r1, c3r2, c3r3]).2.2.flatten = _
    rw [show rowGet c3r1 "g" = some (Val.str "a") from rfl]
    rw [List.foldl_cons, h1, List.foldl_cons, h2, List.foldl_cons, h3, List.foldl_nil]
    rfl
  · have h1 : rollingGroupStep c3Value "g" "day" 1 (some (Val.str "b"), [], []) c3r3
        = (some (Val.str "b"), [c3r3], []) := by
      rw [rollingGroupStep, show rowGet c3r3 "g" = some (Val.str "b") from rfl,
        if_neg (by decide)]
      rfl
    show (List.foldl (rollingGroupStep c3Value "g" "day" 1)
        (rowGet c3r3 "g", [], []) [c3r3]).2.2.flatten = _
    rw [show rowGet c3r3 "g" = some (Val.str "b") from rfl]
    rw [List.foldl_cons, h1, List.foldl_nil]
    rfl

/-! ## Registry lemmas for the ingestion claims -/

theorem jsGet_eq_none_iff {κ α : Type} [DecidableEq κ] (m : List (κ × α)) (k : κ) :
    jsGet m k = none ↔ k ∉ m.map Prod.fst := by
  induction m with
  | nil => simp [jsGet]
  | cons hd tl ih =>
    obtain ⟨k0, v0⟩ := hd
    by_cases hk : k = k0
    · subst hk; simp [jsGet]
    · simp [jsGet, hk, ih]

/-- `jsSet` with an already-present key keeps the key list unchanged. -/
theorem jsSet_keys_of_mem {κ α : Type} [DecidableEq κ] (m : List (κ × α)) (k : κ) (v : α)
    (h : k ∈ m.map Prod.fst) :
    (jsSet m k v).map Prod.fst = m.map Prod.fst := by
  induction m with
  | nil => simp at h
  | cons hd tl ih =>
    obtain ⟨k0, v0⟩ := hd
    by_cases hk : k0 = k
    · subst hk; simp [jsSet]
    · simp [jsSet, hk]
      refine ih ?_
      simp at h
      rcases h with h | h
      · exact absurd h.symm hk
      · obtain ⟨x, hx⟩ := h
        exact List.mem_map.mpr ⟨(k, x), hx, rfl⟩

/-- `jsSet` keeps the keys duplicate-free. -/
theorem jsSet_keys_nodup {κ α : Type} [DecidableEq κ] (m : List (κ × α)) (k : κ) (v : α)
    (h : (m.map Prod.fst).Nodup) : ((jsSet m k v).map Prod.fst).Nodup := by
  by_cases hmem : k ∈ m.map Prod.fst
  · rw [jsSet_keys_of_mem m k v hmem]; exact h
  · rw [jsSet_of_not_mem m k v ((jsGet_eq_none_iff m k).mpr hmem)]
    simp only [List.map_append, List.map_cons, List.map_nil]
    rw [List.nodup_append]
    refine ⟨h, List.nodup_singleton k, ?_⟩
    intro a ha hb
    simp at hb
    subst hb
    exact hmem ha

/-- Re-folding a duplicate-free association list with `jsSet` (as the table
constructor does with the spec registry) reproduces it. -/
theorem foldl_jsSet_self {κ α : Type} [DecidableEq κ] :
    ∀ (m acc : List (κ × α)), ((acc ++ m).map Prod.fst).Nodup →
      m.foldl (fun a p => jsSet a p.1 p.2) acc = acc ++ m := by
  intro m
  induction m with
  | nil => intro acc _; simp
  | cons hd tl ih =>
    intro acc hnd
    obtain ⟨k0, v0⟩ := hd
    have hassoc : acc ++ (k0, v0) :: tl = (acc ++ [(k0, v0)]) ++ tl := by simp
    have hk0 : k0 ∉ acc.map Prod.fst := by
      intro hmem
      rw [List.map_append, List.nodup_append] at hnd
      exact hnd.2.2 hmem (by simp)
    have hstep : jsSet acc k0 v0 = acc ++ [(k0, v0)] :=
      jsSet_of_not_mem acc k0 v0 ((jsGet_eq_none_iff acc k0).mpr hk0)
    calc ((k0, v0) :: tl).foldl (fun a p => jsSet a p.1 p.2) acc
        = tl.foldl (fun a p => jsSet a p.1 p.2) (jsSet acc k0 v0) := rfl
      _ = tl.foldl (fun a p => jsSet a p.1 p.2) (acc ++ [(k0, v0)]) := by rw [hstep]
      _ = (acc ++ [(k0, v0)]) ++ tl := ih _ (hassoc ▸ hnd)
      _ = acc ++ (k0, v0) :: tl := by simp

/-- The table constructor reproduces a duplicate-free spec registry
verbatim. -/
theorem mkTable_columns_of_nodup (rows : List Row) (specs : List (String × ColumnSpec))
    (h : (specs.map Prod.fst).Nodup) : (mkTable rows specs).columns = specs := by
  show specs.foldl (fun m p => jsSet m p.1 p.2) [] = specs
  have hall := foldl_jsSet_self specs [] (by simpa using h)
  simpa using hall

/-! ## Claim C9: `fromLegacy` edge cases -/

/-- **C9.**  (a) An empty variable set yields an empty table whose registry
holds exactly the three identity columns.  (b) A variable with no annotation
side-channel registers no annotations column at all: its annotation slug is
absent from the registry, and the spec stored under the variable's slug
carries no `annotationsColumnSlug` cross-reference. -/
theorem c9_fromLegacy_edge_cases :
    (∀ (slugify : String → String) (ek : Int → EntityMeta),
      (fromLegacy slugify { variableList := [], entityKey := ek }).rows = [] ∧
      (fromLegacy slugify { variableList := [], entityKey := ek }).columns.map Prod.fst
        = ["entityName", "entityId", "entityCode"]) ∧
    (∀ (slugify : String → String) (ek : Int → EntityMeta) (v : OwidVariable),
      v.display.entityAnnotationsMap = none →
      jsGet (fromLegacy slugify { variableList := [v], entityKey := ek }).columns
          (makeAnnotationColumnSlug (columnSpecFromLegacyVariable slugify v).slug)
        = none ∧
      jsGet (fromLegacy slugify { variableList := [v], entityKey := ek }).columns
          (columnSpecFromLegacyVariable slugify v).slug
        = some (columnSpecFromLegacyVariable slugify v) ∧
      (columnSpecFromLegacyVariable slugify v).annotationsColumnSlug = none) := by
  constructor
  · intro slugify ek
    exact ⟨rfl, rfl⟩
  · intro slugify ek v h
    have hann : hasAnnotations v = false := by simp [hasAnnotations, h]
    have hform : legacySpecsForVariable slugify v baseLegacySpecs
        = jsSet
            (jsSet baseLegacySpecs
              (if (columnSpecFromLegacyVariable slugify v).isDailyMeasurement
                then "day" else "year")
              { slug := if (columnSpecFromLegacyVariable slugify v).isDailyMeasurement
                  then "day" else "year" })
            (columnSpecFromLegacyVariable slugify v).slug
            (columnSpecFromLegacyVariable slugify v) := by
      simp only [legacySpecsForVariable, hann, Bool.false_eq_true, if_false]
    have hbasend : (baseLegacySpecs.map Prod.fst).Nodup := by decide
    have hnodup : ((legacySpecsForVariable slugify v baseLegacySpecs).map Prod.fst).Nodup := by
      rw [hform]
      exact jsSet_keys_nodup _ _ _ (jsSet_keys_nodup _ _ _ hbasend)
    have hcols : (fromLegacy slugify { variableList := [v], entityKey := ek }).columns
        = legacySpecsForVariable slugify v baseLegacySpecs :=
      mkTable_columns_of_nodup _ _ hnodup
    have hsluglen : 1 ≤ (columnSpecFromLegacyVariable slugify v).slug.length := by
      show 1 ≤ (toString v.id ++ "-" ++ slugify v.name).length
      rw [String.length_append, String.length_append]
      have hd : ("-" : String).length = 1 := by decide
      omega
    have hannlen :
        (makeAnnotationColumnSlug (columnSpecFromLegacyVariable slugify v).slug).length
        = (columnSpecFromLegacyVariable slugify v).slug.length + 12 := by
      show ((columnSpecFromLegacyVariable slugify v).slug ++ "-annotations").length = _
      rw [String.length_append, show ("-annotations" : String).length = 12 from by decide]
    have hlong : ∀ s : String, s.length < 13 →
        makeAnnotationColumnSlug (columnSpecFromLegacyVariable slugify v).slug ≠ s := by
      intro s hs he
      have hl := congrArg String.length he
      rw [hannlen] at hl
      omega
    rw [hcols, hform]
    refine ⟨?_, ?_, rfl⟩
    · have hne1 : makeAnnotationColumnSlug (columnSpecFromLegacyVariable slugify v).slug
          ≠ (columnSpecFromLegacyVariable slugify v).slug := by
        intro he
        have hl := congrArg String.length he
        rw [hannlen] at hl
        omega
      rw [jsGet_jsSet, if_neg hne1]
      have hne2 : makeAnnotationColumnSlug (columnSpecFromLegacyVariable slugify v).slug
          ≠ (if (columnSpecFromLegacyVariable slugify v).isDailyMeasurement
              then "day" else "year") := by
        cases hb : (columnSpecFromLegacyVariable slugify v).isDailyMeasurement <;>
          simp only [hb, Bool.false_eq_true, if_false, if_true] <;>
          exact hlong _ (by decide)
      rw [jsGet_jsSet, if_neg hne2]
      have hbase : baseLegacySpecs
          = [("entityName", { slug := "entityName" }),
             ("entityId", { slug := "entityId" }),
             ("entityCode", { slug := "entityCode" })] := rfl
      rw [hbase]
      simp [jsGet, hlong "entityName" (by decide), hlong "entityId" (by decide),
        hlong "entityCode" (by decide)]
    · rw [jsGet_jsSet, if_pos rfl]

/-- A concrete unannotated daily variable for the C9 witness. -/
def c9wVar : OwidVariable :=
  { id := 7, name := "x", entities := [1], years := [0], values := [Val.num 3]
    display := { yearIsDay := true } }

/-- Witness for `c9_fromLegacy_edge_cases` at concrete inputs. -/
theorem c9_fromLegacy_edge_cases_witness :
    ((fromLegacy (fun s => s)
        { variableList := [], entityKey := fun _ => ⟨"E", "EC"⟩ }).rows = [] ∧
      (fromLegacy (fun s => s)
        { variableList := [], entityKey := fun _ => ⟨"E", "EC"⟩ }).columns.map Prod.fst
        = ["entityName", "entityId", "entityCode"]) ∧
    (c9wVar.display.entityAnnotationsMap = none ∧
      jsGet (fromLegacy (fun s => s)
          { variableList := [c9wVar], entityKey := fun _ => ⟨"E", "EC"⟩ }).columns
          (makeAnnotationColumnSlug
            (columnSpecFromLegacyVariable (fun s => s) c9wVar).slug) = none ∧
      jsGet (fromLegacy (fun s => s)
          { variableList := [c9wVar], entityKey := fun _ => ⟨"E", "EC"⟩ }).columns
          (columnSpecFromLegacyVariable (fun s => s) c9wVar).slug
        = some (columnSpecFromLegacyVariable (fun s => s) c9wVar) ∧
      (columnSpecFromLegacyVariable (fun s => s) c9wVar).annotationsColumnSlug = none) :=
  ⟨c9_fromLegacy_edge_cases.1 (fun s => s) (fun _ => ⟨"E", "EC"⟩),
    rfl, c9_fromLegacy_edge_cases.2 (fun s => s) (fun _ => ⟨"E", "EC"⟩) c9wVar rfl⟩

/-! ## Claim C5: epoch normalization of daily variables -/

/-- Any field of a merged row is a field of one of the source rows (as a
key/value pair; `Object.assign` only copies pairs). -/
theorem rowGet_foldl_rowSet (r : Row) (k : String) (v : Val) :
    ∀ acc : Row, rowGet (r.foldl (fun acc2 kv => rowSet acc2 kv.1 kv.2) acc) k = some v →
      (k, v) ∈ (r : List (String × Val)) ∨ rowGet acc k = some v := by
  induction r with
  | nil => intro acc h; exact Or.inr h
  | cons hd tl ih =>
    intro acc h
    obtain ⟨k0, v0⟩ := hd
    rcases ih (rowSet acc k0 v0) h with h1 | h2
    · exact Or.inl (List.mem_cons_of_mem _ h1)
    · rw [rowGet_rowSet] at h2
      by_cases hk : k = k0
      · subst hk
        simp at h2
        subst h2
        exact Or.inl (List.mem_cons_self _ _)
      · rw [if_neg hk] at h2
        exact Or.inr h2

theorem rowGet_mergeRows (rs : List Row) (k : String) (v : Val)
    (h : rowGet (mergeRows rs) k = some v) :
    ∃ r ∈ rs, (k, v) ∈ (r : List (String × Val)) := by
  rw [mergeRows] at h
  suffices haux : ∀ (rs : List Row) (acc : Row),
      rowGet (rs.foldl (fun a r => r.foldl (fun a2 kv => rowSet a2 kv.1 kv.2) a) acc) k
        = some v →
      (∃ r ∈ rs, (k, v) ∈ (r : List (String × Val))) ∨ rowGet acc k = some v by
    rcases haux rs [] h with h1 | h2
    · exact h1
    · simp [rowGet, jsGet] at h2
  intro rs
  induction rs with
  | nil => intro acc h; exact Or.inr h
  | cons r0 tl ih =>
    intro acc h
    rcases ih _ h with h1 | h2
    · obtain ⟨r, hr, hkv⟩ := h1
      exact Or.inl ⟨r, List.mem_cons_of_mem _ hr, hkv⟩
    · rcases rowGet_foldl_rowSet r0 k v acc h2 with h3 | h4
      · exact Or.inl ⟨r0, List.mem_cons_self _ _, h3⟩
      · exact Or.inr h4

/-- A left fold of appends is the flat map. -/
theorem foldl_append_eq_flatMap {α β : Type} (f : α → List β) :
    ∀ (l : List α) (acc : List β),
      l.foldl (fun a b => a ++ f b) acc = acc ++ l.flatMap f := by
  intro l
  induction l with
  | nil => intro acc; simp
  | cons hd tl ih =>
    intro acc
    simp only [List.foldl_cons, List.flatMap_cons, ih]
    simp

/-- The dash is always present in a legacy variable slug (`id ++ "-" ++
slugified name`), so the slug can never collide with the dash-free reserved
column names. -/
theorem dash_mem_legacy_slug (slugify : String → String) (v : OwidVariable) :
    '-' ∈ (columnSpecFromLegacyVariable slugify v).slug.data := by
  show '-' ∈ (toString v.id ++ "-" ++ slugify v.name).data
  rw [String.data_append, String.data_append]
  simp [show ('-' : Char) ∈ ("-" : String).data from by decide]

/-- The emitted day offsets of a daily variable with a declared `zeroDay`:
always `raw + (zeroDay - EPOCH_DATE)`, whichever branch of the
`yearsNeedTransform` test is taken. -/
theorem legacyEmittedYears_get (w : OwidVariable) (D : Int)
    (hday : w.display.yearIsDay = true) (hzero : w.display.zeroDay = some D)
    (i : Nat) (y : Int) (hy : w.years.get? i = some y) :
    (legacyEmittedYears w).get? i
      = some (y + diffDateISOStringInDays D EPOCH_DATE) := by
  rw [legacyEmittedYears]
  by_cases hE : w.display.zeroDay = some EPOCH_DATE
  · rw [if_neg (by simp [hE])]
    have hDE : D = EPOCH_DATE := by
      rw [hzero] at hE
      exact Option.some.injEq _ _ ▸ (by simpa using hE)
    rw [hy, hDE]
    simp [diffDateISOStringInDays]
  · rw [if_pos ⟨hday, by simp [hzero], hE⟩]
    rw [convertLegacyYears, hzero]
    simp [List.get?_map, ← List.get?_eq_getElem?, hy]

/-- A `("day", Val.num q)` field of a row built for a daily legacy variable
can only be the time cell: the value slug and the annotations slug contain a
dash and the identity columns are fixed non-"day" names. -/
theorem legacy_day_pair (slugify : String → String) (ek : Int → EntityMeta)
    (w : OwidVariable) (hday : w.display.yearIsDay = true)
    (r0 : Row) (hr0 : r0 ∈ legacyRowsForVariable ek slugify w)
    (q : Int) (hmem : ("day", Val.num q) ∈ (r0 : List (String × Val))) :
    ∃ i, i < w.values.length ∧ q = ((legacyEmittedYears w).get? i).getD 0 := by
  simp only [legacyRowsForVariable] at hr0
  rw [List.mem_map] at hr0
  obtain ⟨p, hp, hbody⟩ := hr0
  have hpi : p.1 < w.values.length := by
    have := List.mem_enum_iff_getElem?.mp (show (p.1, p.2) ∈ w.values.enum from hp)
    exact (List.getElem?_eq_some.mp this).1
  have hdash : ¬ ("day" : String) = (columnSpecFromLegacyVariable slugify w).slug := by
    intro he
    have hd := dash_mem_legacy_slug slugify w
    rw [← he] at hd
    exact absurd hd (by decide)
  have hdashAnn : ¬ ("day" : String)
      = makeAnnotationColumnSlug (columnSpecFromLegacyVariable slugify w).slug := by
    intro he
    have hd : '-' ∈ (makeAnnotationColumnSlug
        (columnSpecFromLegacyVariable slugify w).slug).data := by
      show '-' ∈ ((columnSpecFromLegacyVariable slugify w).slug ++ "-annotations").data
      rw [String.data_append]
      simp [show ('-' : Char) ∈ ("-annotations" : String).data from by decide]
    rw [← he] at hd
    exact absurd hd (by decide)
  have htime : (if (columnSpecFromLegacyVariable slugify w).isDailyMeasurement
      then "day" else "year") = ("day" : String) := by
    have : (columnSpecFromLegacyVariable slugify w).isDailyMeasurement = true := hday
    rw [this]
    simp
  rw [← hbody] at hmem
  rw [htime] at hmem
  refine ⟨p.1, hpi, ?_⟩
  have hbase : ∀ a b c d : Val,
      ("day", Val.num q) ∈
        ([("day", Val.num (((legacyEmittedYears w).get? p.1).getD 0)),
          ((columnSpecFromLegacyVariable slugify w).slug, a),
          ("entityName", b), ("entityId", c), ("entityCode", d)] :
            List (String × Val)) →
      q = ((legacyEmittedYears w).get? p.1).getD 0 := by
    intro a b c d hb
    simp only [List.mem_cons, List.not_mem_nil, or_false] at hb
    rcases hb with h | h | h | h | h
    · exact Val.num.inj (congrArg Prod.snd h)
    · exact absurd (congrArg Prod.fst h) hdash
    · have hf : ("day" : String) = "entityName" := congrArg Prod.fst h
      exact absurd hf (by decide)
    · have hf : ("day" : String) = "entityId" := congrArg Prod.fst h
      exact absurd hf (by decide)
    · have hf : ("day" : String) = "entityCode" := congrArg Prod.fst h
      exact absurd hf (by decide)
  by_cases hann : hasAnnotations w
  · rw [if_pos hann] at hmem
    rcases hmatch : jsGet (annotationsToMap (w.display.entityAnnotationsMap.getD ""))
        ((w.entities.map (fun id => (ek id).name)).getD p.1 "") with _ | a
    all_goals rw [hmatch] at hmem
    · exact hbase _ _ _ _ hmem
    · rw [List.mem_append] at hmem
      rcases hmem with hmem | hextra
      · exact hbase _ _ _ _ hmem
      · simp only [List.mem_cons, List.not_mem_nil, or_false] at hextra
        exact absurd (congrArg Prod.fst hextra) hdashAnn
  · rw [if_neg hann] at hmem
    exact hbase _ _ _ _ hmem

/-- **C5.**  (a) Every `day` value emitted by `fromLegacy` for a family of
daily variables with declared `zeroDay`s equals some variable's raw day
offset plus the whole-day difference between that variable's `zeroDay` and
the table epoch.  (b) Consequently, observations of two variables that
denote the same real date (`raw + zeroDay` equal) are emitted onto the same
`day` value. -/
theorem c5_epoch_normalization (slugify : String → String)
    (json : OwidVariablesAndEntityKey)
    (hdaily : ∀ w ∈ json.variableList, w.display.yearIsDay = true)
    (hzero : ∀ w ∈ json.variableList, w.display.zeroDay ≠ none)
    (hlen : ∀ w ∈ json.variableList, w.years.length = w.values.length) :
    (∀ r ∈ (fromLegacy slugify json).rows, ∀ q : Int,
      rowGet r "day" = some (Val.num q) →
      ∃ w ∈ json.variableList, ∃ i y D, w.display.zeroDay = some D ∧
        w.years.get? i = some y ∧
        q = y + diffDateISOStringInDays D EPOCH_DATE) ∧
    (∀ v1 ∈ json.variableList, ∀ v2 ∈ json.variableList,
      ∀ (D1 D2 : Int) (i j : Nat) (y1 y2 : Int),
        v1.display.zeroDay = some D1 → v2.display.zeroDay = some D2 →
        v1.years.get? i = some y1 → v2.years.get? j = some y2 →
        y1 + D1 = y2 + D2 →
        (legacyEmittedYears v1).get? i = (legacyEmittedYears v2).get? j) := by
  constructor
  · intro r hr q hq
    have hrows : (fromLegacy slugify json).rows
        = (dedupFirst ((json.variableList.foldl
            (fun rs v => rs ++ legacyRowsForVariable json.entityKey slugify v) []).map
              legacyGroupKey)).map
          (fun k => mergeRows ((json.variableList.foldl
            (fun rs v => rs ++ legacyRowsForVariable json.entityKey slugify v) []).filter
              (fun r => legacyGroupKey r = k))) := rfl
    rw [hrows, List.mem_map] at hr
    obtain ⟨k, _, hk⟩ := hr
    rw [← hk] at hq
    obtain ⟨r0, hr0f, hpair⟩ := rowGet_mergeRows _ _ _ hq
    have hr0 : r0 ∈ json.variableList.foldl
        (fun rs v => rs ++ legacyRowsForVariable json.entityKey slugify v) [] :=
      List.mem_of_mem_filter hr0f
    rw [foldl_append_eq_flatMap _ _ [], List.nil_append, List.mem_flatMap] at hr0
    obtain ⟨w, hw, hr0w⟩ := hr0
    obtain ⟨i, hi, hqi⟩ :=
      legacy_day_pair slugify json.entityKey w (hdaily w hw) r0 hr0w q hpair
    obtain ⟨D, hD⟩ := Option.ne_none_iff_exists'.mp (hzero w hw)
    have hyi : i < w.years.length := by rw [hlen w hw]; exact hi
    have hy : w.years.get? i = some (w.years.get ⟨i, hyi⟩) := List.get?_eq_get hyi
    have hemit := legacyEmittedYears_get w D (hdaily w hw) hD i _ hy
    refine ⟨w, hw, i, w.years.get ⟨i, hyi⟩, D, hD, hy, ?_⟩
    rw [hqi, hemit]
    rfl
  · intro v1 h1 v2 h2 D1 D2 i j y1 y2 hD1 hD2 hy1 hy2 heq
    rw [legacyEmittedYears_get v1 D1 (hdaily v1 h1) hD1 i y1 hy1,
      legacyEmittedYears_get v2 D2 (hdaily v2 h2) hD2 j y2 hy2]
    simp only [diffDateISOStringInDays]
    congr 1
    omega

/-- First witness variable: daily, `zeroDay` at the epoch. -/
def c5wVar1 : OwidVariable :=
  { id := 1, name := "a", entities := [1], years := [5], values := [Val.num 7]
    display := { yearIsDay := true, zeroDay := some EPOCH_DATE } }

/-- Second witness variable: daily, `zeroDay` ten days after the epoch; its
raw day -5 denotes the same real date as the first variable's raw day 5. -/
def c5wVar2 : OwidVariable :=
  { id := 2, name := "b", entities := [1], years := [-5], values := [Val.num 9]
    display := { yearIsDay := true, zeroDay := some (EPOCH_DATE + 10) } }

/-- The C5 witness wire input. -/
def c5wJson : OwidVariablesAndEntityKey :=
  { variableList := [c5wVar1, c5wVar2], entityKey := fun _ => ⟨"E", "EC"⟩ }

/-- Witness for `c5_epoch_normalization` at a concrete two-variable input. -/
theorem c5_epoch_normalization_witness :
    ((∀ w ∈ c5wJson.variableList, w.display.yearIsDay = true) ∧
      (∀ w ∈ c5wJson.variableList, w.display.zeroDay ≠ none) ∧
      (∀ w ∈ c5wJson.variableList, w.years.length = w.values.length)) ∧
    (∀ r ∈ (fromLegacy (fun s => s) c5wJson).rows, ∀ q : Int,
      rowGet r "day" = some (Val.num q) →
      ∃ w ∈ c5wJson.variableList, ∃ i y D, w.display.zeroDay = some D ∧
        w.years.get? i = some y ∧
        q = y + diffDateISOStringInDays D EPOCH_DATE) ∧
    (∀ v1 ∈ c5wJson.variableList, ∀ v2 ∈ c5wJson.variableList,
      ∀ (D1 D2 : Int) (i j : Nat) (y1 y2 : Int),
        v1.display.zeroDay = some D1 → v2.display.zeroDay = some D2 →
        v1.years.get? i = some y1 → v2.years.get? j = some y2 →
        y1 + D1 = y2 + D2 →
        (legacyEmittedYears v1).get? i = (legacyEmittedYears v2).get? j) :=
  ⟨⟨by decide, by decide, by decide⟩,
    (c5_epoch_normalization (fun s => s) c5wJson (by decide) (by decide) (by decide)).1,
    (c5_epoch_normalization (fun s => s) c5wJson (by decide) (by decide) (by decide)).2⟩

/-! ## Claim C4: conjunctive filter composition -/

/-- **C4.**  Over a table with no pre-existing filter columns, fresh slugs and
rows, adding two independent filter columns (the second predicate must not
read the first filter's cached field: `hindep21`): a row appears in
`unfilteredRows` iff both predicates are truthy on it (the view, with the two
cached boolean fields stripped back off, is exactly the conjunctive filter of
the original rows), and that view equals the intersection of the row sets
each filter selects on its own. -/
theorem c4_filter_composition (t : Table) (s1 s2 : String) (p1 p2 : Row → Bool)
    (hslug : s1 ≠ s2)
    (hnofilt : ∀ q ∈ t.columns, q.2.isFilterColumn = false)
    (hnew1 : jsGet t.columns s1 = none) (hnew2 : jsGet t.columns s2 = none)
    (hfresh1 : ∀ row ∈ t.rows, rowGet row s1 = none)
    (hfresh2 : ∀ row ∈ t.rows, rowGet row s2 = none)
    (hindep21 : ∀ r v, p2 (rowSet r s1 v) = p2 r) :
    (unfilteredRows (addFilterColumn (addFilterColumn t s1 p1) s2 p2)).map
        (fun r => rowDelete (rowDelete r s2) s1)
      = t.rows.filter (fun r => p1 r && p2 r) ∧
    (unfilteredRows (addFilterColumn (addFilterColumn t s1 p1) s2 p2)).map
        (fun r => rowDelete (rowDelete r s2) s1)
      = ((unfilteredRows (addFilterColumn t s1 p1)).map (fun r => rowDelete r s1))
          ∩ ((unfilteredRows (addFilterColumn t s2 p2)).map (fun r => rowDelete r s2)) := by
  have hmain := unfilteredRows_two_filters t s1 s2 p1 p2 hslug hnofilt hnew1 hnew2
    hfresh1 hfresh2 hindep21
  refine ⟨hmain, ?_⟩
  rw [hmain,
    unfilteredRows_addFilterColumn t s1 p1 hnofilt hnew1 hfresh1,
    unfilteredRows_addFilterColumn t s2 p2 hnofilt hnew2 hfresh2]
  exact (inter_filter_filter t.rows p1 p2).symm

/-- Witness rows for C4. -/
def c4Rows : List Row :=
  [[("id", Val.num 1)], [("id", Val.num 2)], [("id", Val.num 3)]]

/-- Witness table: one auto-style column, no filters. -/
def c4Table : Table := mkTable c4Rows [("id", { slug := "id" })]

/-- First witness predicate: `id` is not 1. -/
def c4p1 (r : Row) : Bool := rowGet r "id" ≠ some (Val.num 1)

/-- Second witness predicate: `id` is not 3. -/
def c4p2 (r : Row) : Bool := rowGet r "id" ≠ some (Val.num 3)

/-- Witness for `c4_filter_composition` at a concrete table (only row
`{id: 2}` passes both filters). -/
theorem c4_filter_composition_witness :
    ("f1" : String) ≠ "f2" ∧
    (∀ q ∈ c4Table.columns, q.2.isFilterColumn = false) ∧
    jsGet c4Table.columns "f1" = none ∧ jsGet c4Table.columns "f2" = none ∧
    (∀ row ∈ c4Table.rows, rowGet row "f1" = none) ∧
    (∀ row ∈ c4Table.rows, rowGet row "f2" = none) ∧
    ((unfilteredRows (addFilterColumn (addFilterColumn c4Table "f1" c4p1) "f2" c4p2)).map
        (fun r => rowDelete (rowDelete r "f2") "f1")
      = c4Table.rows.filter (fun r => c4p1 r && c4p2 r) ∧
    (unfilteredRows (addFilterColumn (addFilterColumn c4Table "f1" c4p1) "f2" c4p2)).map
        (fun r => rowDelete (rowDelete r "f2") "f1")
      = ((unfilteredRows (addFilterColumn c4Table "f1" c4p1)).map
          (fun r => rowDelete r "f1"))
          ∩ ((unfilteredRows (addFilterColumn c4Table "f2" c4p2)).map
            (fun r => rowDelete r "f2"))) :=
  ⟨by decide, by decide, rfl, rfl, by decide, by decide,
    c4_filter_composition c4Table "f1" "f2" c4p1 c4p2 (by decide) (by decide)
      rfl rfl (by decide) (by decide)
      (fun r v => by
        simp only [c4p2]
        rw [rowGet_rowSet_ne r "f1" "id" v (by decide)])⟩

/-! ## Claim C6: the selection read path refines the spec's description

The spec describes `selectedKeys` as a pipeline: validity filter (§3: the
dimension index addresses an existing primary dimension and the entity id
resolves to an entity present in that dimension's data), deduplication by
(entityId, dimensionIndex), then — in "change entity" mode — a collapse to
only the most-recently-added persisted entry's entity.  The code instead
folds the mode check into the validity filter and deduplicates afterwards.
The definitions below spell out the spec's pipeline verbatim
(`specSelectedKeys`); the claim theorem proves the two agree on every
configuration.  (Reads cannot modify the persisted selection by
construction: every getter is embedded as a pure function of the state.) -/

/-- Spec-side (§3): an entry is valid when its dimension index addresses an
existing primary dimension and its entityId resolves (truthily) to an entity
name present in that dimension's data.  No mode check here. -/
def specValidEntry (cfg : ChartState) (sel : EntitySelection) : Bool :=
  match (primaryDimensions cfg).get? sel.index with
  | none => false
  | some dimension =>
    let entityName := mapGetU (entityIdToNameMap cfg.table) sel.entityId
    jsTruthyOpt entityName &&
      (colEntityNamesUniq cfg.table dimension.column).contains entityName

/-- Spec-side (§4.5): in "change entity" mode, collapse the list to only the
entries carrying the most-recently-added persisted entry's entity. -/
def specModeCollapse (cfg : ChartState) (l : List EntitySelection) :
    List EntitySelection :=
  if addCountryMode cfg = "change-country" then
    match cfg.props.selectedData.getLast? with
    | some last => l.filter (fun sel => sel.entityId = last.entityId)
    | none => l
  else l

/-- Spec-side `selectedKeys`: validity filter, dedup by (entityId, index),
change-entity collapse, then key construction. -/
def specSelectedKeys (cfg : ChartState) : List String :=
  (specModeCollapse cfg
    (dedupOn (fun s => (s.entityId, s.index))
      (cfg.props.selectedData.filter (specValidEntry cfg)))).map
    (fun sel =>
      makeEntityDimensionKey
        (jsToStringOpt (mapGetU (entityIdToNameMap cfg.table) sel.entityId))
        sel.index)

/-- The code's change-country early-return, isolated as a predicate (true =
the entry survives). -/
def changeModeOk (cfg : ChartState) (sel : EntitySelection) : Bool :=
  ¬ (addCountryMode cfg = "change-country" ∧
      sel.entityId ≠ (match cfg.props.selectedData.getLast? with
        | some l => l.entityId
        | none => sel.entityId))

/-- The code's validity callback factors as the spec's core validity rule
conjoined with the mode check. -/
theorem validSelection_factors (cfg : ChartState) (sel : EntitySelection) :
    validSelection cfg sel = (specValidEntry cfg sel && changeModeOk cfg sel) := by
  unfold validSelection specValidEntry changeModeOk
  cases h : (primaryDimensions cfg).get? sel.index with
  | none => rfl
  | some dimension =>
    by_cases h1 : jsTruthyOpt (mapGetU (entityIdToNameMap cfg.table) sel.entityId)
    · by_cases h2 : (colEntityNamesUniq cfg.table dimension.column).contains
          (mapGetU (entityIdToNameMap cfg.table) sel.entityId)
      · by_cases h3 : addCountryMode cfg = "change-country" ∧
            sel.entityId ≠ (match cfg.props.selectedData.getLast? with
              | some l => l.entityId
              | none => sel.entityId)
        · simp [h1, h2, h3]
        · simp [h1, h2, h3]
      · simp [h1, h2]
    · simp [h1]

/-- The mode check reads only the entry's entityId. -/
theorem changeModeOk_of_entityId (cfg : ChartState) (a b : EntitySelection)
    (h : a.entityId = b.entityId) : changeModeOk cfg a = changeModeOk cfg b := by
  unfold changeModeOk
  rw [h]

/-- Filtering by the mode check is exactly the spec's change-entity
collapse. -/
theorem filter_changeModeOk (cfg : ChartState) (l : List EntitySelection) :
    l.filter (changeModeOk cfg) = specModeCollapse cfg l := by
  unfold specModeCollapse
  by_cases hm : addCountryMode cfg = "change-country"
  · rw [if_pos hm]
    cases hl : cfg.props.selectedData.getLast? with
    | some last =>
      refine List.filter_congr ?_
      intro sel _
      unfold changeModeOk
      rw [hl]
      by_cases he : sel.entityId = last.entityId
      · simp [hm, he]
      · simp [hm, he]
    | none =>
      refine List.filter_eq_self.mpr ?_
      intro sel _
      unfold changeModeOk
      rw [hl]
      simp
  · rw [if_neg hm]
    refine List.filter_eq_self.mpr ?_
    intro sel _
    unfold changeModeOk
    simp [hm]

/-- **C6.**  For every configuration, `selectedKeys` returns exactly the
persisted entries that pass the spec's validity rule (existing primary
dimension, entity id resolving to an entity present in that dimension's
data), deduplicated by (entityId, dimensionIndex) and — in "change entity"
mode — collapsed to only the most-recently-added persisted entry's entity,
each rendered as its entity-dimension key.  Invalid entries are silently
dropped (`specValidEntry` filtering, no error path), and the read leaves the
persisted list untouched since every getter is a pure function of the
state. -/
theorem c6_selectedKeys_matches_spec (cfg : ChartState) :
    selectedKeys cfg = specSelectedKeys cfg := by
  have hfilter : cfg.props.selectedData.filter (validSelection cfg)
      = (cfg.props.selectedData.filter (specValidEntry cfg)).filter
          (changeModeOk cfg) := by
    rw [List.filter_filter]
    refine List.filter_congr ?_
    intro a _
    rw [validSelection_factors, Bool.and_comm]
  simp only [selectedKeys, specSelectedKeys, selectionData, List.map_map]
  rw [hfilter,
    ← filter_dedupOn (fun s => (s.entityId, s.index)) (changeModeOk cfg)
      (fun a b hk => changeModeOk_of_entityId cfg a b (congrArg Prod.fst hk)),
    filter_changeModeOk]
  rfl

/-! ## Claim C1: `filledDimensions` resolution

`columnsByOwidVarId` keys each column by `spec.owidVariableId ?? index`
(registry position), so a column *without* an `owidVariableId` is reachable
under its index.  A dimension whose `variableId` collides with such an index
therefore counts as resolved — `isReady` turns true and `filledDimensions`
hands back a column whose `owidVariableId` is `undefined`, not the
dimension's `variableId`.  The identity columns of every `fromLegacy` table
occupy indices 0–2 and never carry an `owidVariableId`, so the collision is
reachable from ordinary ingested tables. -/

/-- A table with only the three identity columns (none carries an
`owidVariableId`), as `fromLegacy` registers for an empty variable set. -/
def c1Table : Table :=
  mkTable []
    [("entityName", { slug := "entityName" }),
     ("entityId", { slug := "entityId" }),
     ("entityCode", { slug := "entityCode" })]

/-- A chart over `c1Table` whose single y-dimension references variable id 1:
the id collides with the registry index of `entityId`. -/
def c1Cfg : ChartState :=
  { props := { selectedData := []
               dimensions := [{ property := "y", variableId := 1 }]
               addCountryMode := none }
    table := c1Table }

/-- **C1, counterexample.**  The claim says that whenever `isReady` is true
every element of `filledDimensions` resolves to a column whose
`owidVariableId` equals the dimension's `variableId`.  On `c1Cfg` the chart
is ready (the fallback key 1 resolves) and the single filled dimension's
column has `owidVariableId = undefined`, not 1. -/
theorem c1_counterexample :
    isReady c1Cfg = true ∧
    (filledDimensions c1Cfg).map (fun fd => fd.column.owidVariableId) = [none] ∧
    (filledDimensions c1Cfg).map (fun fd => fd.props.variableId) = [1] ∧
    (filledDimensions c1Cfg).map (fun fd => fd.column.slug) = ["entityId"] :=
  ⟨by decide, rfl, rfl, rfl⟩

/-- Every binding of `columnsByOwidVarId` whose stored column carries an
`owidVariableId` is keyed by exactly that id (the index fallback only ever
keys id-less columns). -/
theorem columnsByOwidVarId_key (t : Table) (id : Int) (spec : ColumnSpec)
    (h : jsGet (columnsByOwidVarId t) id = some spec) :
    ∀ w, spec.owidVariableId = some w → w = id := by
  intro w hw
  unfold columnsByOwidVarId at h
  rcases jsGet_foldl_jsSet (fun p => p.2.owidVariableId.getD (Int.ofNat p.1))
      (fun p => p.2) ((t.columns.map (fun p => p.2)).enum) [] id spec h with
    ⟨b, _, hfb, hgb⟩ | hnone
  · rw [hgb, hw] at hfb
    simpa using hfb
  · simp [jsGet] at hnone

/-- Readiness makes every configured variable id resolvable. -/
theorem isReady_resolves (cfg : ChartState) (h : isReady cfg = true) :
    ∀ d ∈ cfg.props.dimensions,
      (jsGet (columnsByOwidVarId cfg.table) d.variableId).isSome = true := by
  have hnil : loadingVarIds cfg = [] := by
    simpa [isReady, List.isEmpty_iff] using h
  have hall : ∀ d ∈ cfg.props.dimensions,
      jsHas (columnsByOwidVarId cfg.table) d.variableId = true := by
    simpa [loadingVarIds] using hnil
  intro d hd
  simpa [jsHas] using hall d hd

/-- **C1, amended.**  While not ready, `filledDimensions` is empty.  When
ready, it has exactly one element per configured dimension, and each
element's column is the one the variable-id index resolves for the
dimension's `variableId`; that column's `owidVariableId`, *when present*,
equals the `variableId`.  (The claim's unconditional equality fails: the
index keys id-less columns by registry position, see the counterexample.) -/
theorem c1_filledDimensions_amended (cfg : ChartState) :
    (isReady cfg = false → filledDimensions cfg = []) ∧
    (isReady cfg = true →
      (filledDimensions cfg).length = cfg.props.dimensions.length ∧
      ∀ fd ∈ filledDimensions cfg,
        jsGet (columnsByOwidVarId cfg.table) fd.props.variableId = some fd.column ∧
        ∀ w, fd.column.owidVariableId = some w → w = fd.props.variableId) := by
  constructor
  · intro h
    simp [filledDimensions, h]
  · intro h
    constructor
    · simp [filledDimensions, h, List.enum_length]
    · intro fd hfd
      rw [show filledDimensions cfg
          = cfg.props.dimensions.enum.map (fun p =>
              { index := p.1, props := p.2
                column := (jsGet (columnsByOwidVarId cfg.table) p.2.variableId).getD
                  { slug := "" } })
        from by simp [filledDimensions, h]] at hfd
      obtain ⟨p, hp, hfd⟩ := List.mem_map.mp hfd
      have hres := isReady_resolves cfg h p.2 (List.snd_mem_of_mem_enum hp)
      obtain ⟨spec, hspec⟩ := Option.isSome_iff_exists.mp hres
      subst hfd
      refine ⟨?_, ?_⟩
      · simp [hspec]
      · intro w hw
        refine columnsByOwidVarId_key cfg.table p.2.variableId _ hspec w ?_
        simpa [hspec] using hw

/-- Witness for `c1_filledDimensions_amended`: on the counterexample
configuration (which is ready) the amended conclusions hold concretely. -/
theorem c1_filledDimensions_amended_witness :
    isReady c1Cfg = true ∧
    (filledDimensions c1Cfg).length = c1Cfg.props.dimensions.length :=
  ⟨by decide, ((c1_filledDimensions_amended c1Cfg).2 (by decide)).1⟩

/-! ## Claim C10: `setKeyColor` is a pure per-entry color update -/

/-- **C10.**  For every key resolvable in the entity-dimension index (and any
color value), `setKeyColor` succeeds and replaces the persisted selection
with a list of the same length in which the entry at every position keeps its
`entityId` and `index`, and an entry's color becomes the given color exactly
when it matches the key's (entityId, index) — otherwise the color (like the
rest of the entry) is untouched.  Table, dimensions and country mode are
unchanged. -/
theorem c10_setKeyColor_frame (cfg : ChartState) (key : String)
    (color : Option String) (meta : EntityDimensionInfo)
    (h : lookupKey cfg key = some meta) :
    ∃ cfg', setKeyColor cfg key color = some cfg' ∧
      cfg'.table = cfg.table ∧
      cfg'.props.dimensions = cfg.props.dimensions ∧
      cfg'.props.addCountryMode = cfg.props.addCountryMode ∧
      cfg'.props.selectedData.length = cfg.props.selectedData.length ∧
      ∀ i : Nat, ∀ d, cfg.props.selectedData[i]? = some d →
        ∃ d', cfg'.props.selectedData[i]? = some d' ∧
          d'.entityId = d.entityId ∧ d'.index = d.index ∧
          d'.color = (if d.entityId = meta.entityId ∧ d.index = meta.index
                      then color else d.color) := by
  unfold setKeyColor
  rw [h]
  refine ⟨_, rfl, rfl, rfl, rfl, ?_, ?_⟩
  · exact List.length_map _ _
  · intro i d hd
    by_cases hm : d.entityId = meta.entityId ∧ d.index = meta.index
    · refine ⟨{ d with color := color }, ?_, rfl, rfl, by simp [hm]⟩
      show (cfg.props.selectedData.map (fun d =>
        if d.entityId = meta.entityId ∧ d.index = meta.index
        then { d with color := color } else d))[i]? = _
      rw [List.getElem?_map, hd]
      simp [hm]
    · refine ⟨d, ?_, rfl, rfl, by simp [hm]⟩
      show (cfg.props.selectedData.map (fun d =>
        if d.entityId = meta.entityId ∧ d.index = meta.index
        then { d with color := color } else d))[i]? = _
      rw [List.getElem?_map, hd]
      simp [hm]

/-- A one-row table whose value column carries variable id 7. -/
def c10wTable : Table :=
  mkTable [[("entityName", Val.str "A"), ("entityId", Val.num 1), ("v", Val.num 3)]]
    [("entityName", { slug := "entityName" }),
     ("entityId", { slug := "entityId" }),
     ("entityCode", { slug := "entityCode" }),
     ("v", { slug := "v", owidVariableId := some 7 })]

/-- Two persisted entries; only the first matches the key "A_0". -/
def c10wSelected : List EntitySelection :=
  [{ entityId := some (Val.num 1), index := 0, color := none },
   { entityId := some (Val.num 2), index := 0, color := some "red" }]

/-- A ready chart over `c10wTable` with the two persisted entries. -/
def c10wCfg : ChartState :=
  { props := { selectedData := c10wSelected
               dimensions := [{ property := "y", variableId := 7 }]
               addCountryMode := none }
    table := c10wTable }

/-- The index entry the key "A_0" resolves to on `c10wCfg`. -/
def c10wMeta : EntityDimensionInfo :=
  { entityDimensionKey := "A_0", entityId := some (Val.num 1)
    entity := some (Val.str "A"), index := 0 }

/-- Witness for `c10_setKeyColor_frame`: the key "A_0" resolves on `c10wCfg`
and the frame/effect conclusion holds there for the color "blue". -/
theorem c10_setKeyColor_frame_witness :
    lookupKey c10wCfg "A_0" = some c10wMeta ∧
    (∃ cfg', setKeyColor c10wCfg "A_0" (some "blue") = some cfg' ∧
      cfg'.table = c10wCfg.table ∧
      cfg'.props.dimensions = c10wCfg.props.dimensions ∧
      cfg'.props.addCountryMode = c10wCfg.props.addCountryMode ∧
      cfg'.props.selectedData.length = c10wCfg.props.selectedData.length ∧
      ∀ i : Nat, ∀ d, c10wCfg.props.selectedData[i]? = some d →
        ∃ d', cfg'.props.selectedData[i]? = some d' ∧
          d'.entityId = d.entityId ∧ d'.index = d.index ∧
          d'.color = (if d.entityId = c10wMeta.entityId ∧ d.index = c10wMeta.index
                      then some "blue" else d.color)) :=
  ⟨by decide, c10_setKeyColor_frame c10wCfg "A_0" (some "blue") c10wMeta (by decide)⟩

/-! ## Claim C7: the selection read→write round trip

The heart of the claim is that the entity-dimension key (a string
`name_index`) faithfully transports (entityName, dimensionIndex) pairs
between the getter and the setter.  That needs injectivity of the key
construction, which in turn needs that the decimal rendering of the index is
injective and underscore-free — proved here from first principles about
`Nat.toDigitsCore`. -/

/-- Numeric value of a decimal digit character. -/
def charVal (c : Char) : Nat := c.toNat - 48

/-- `digitChar` and `charVal` are inverse on decimal digits. -/
theorem charVal_digitChar (d : Nat) (h : d < 10) :
    charVal (Nat.digitChar d) = d := by
  interval_cases d <;> decide

/-- Decimal digit characters are never the underscore. -/
theorem digitChar_ne_underscore (d : Nat) (h : d < 10) :
    Nat.digitChar d ≠ Char.ofNat 95 := by
  interval_cases d <;> decide

/-- The number a decimal digit string denotes (Horner form). -/
def val10 (l : List Char) : Nat := l.foldl (fun a c => a * 10 + charVal c) 0

theorem val10_append (l1 l2 : List Char) :
    val10 (l1 ++ l2) = l2.foldl (fun a c => a * 10 + charVal c) (val10 l1) := by
  simp [val10, List.foldl_append]

/-- `toDigitsCore` only prepends to its accumulator. -/
theorem toDigitsCore_acc (b : Nat) :
    ∀ (f n : Nat) (acc : List Char),
      Nat.toDigitsCore b f n acc = Nat.toDigitsCore b f n [] ++ acc := by
  intro f
  induction f with
  | zero => intro n acc; simp [Nat.toDigitsCore]
  | succ f ih =>
    intro n acc
    by_cases hz : n / b = 0
    · simp [Nat.toDigitsCore, hz]
    · simp only [Nat.toDigitsCore, if_neg hz]
      rw [ih (n / b) (Nat.digitChar (n % b) :: acc),
          ih (n / b) [Nat.digitChar (n % b)]]
      simp

/-- With sufficient fuel, the digit string of `n` denotes `n`. -/
theorem val10_toDigitsCore :
    ∀ (f n : Nat), n < f → val10 (Nat.toDigitsCore 10 f n []) = n := by
  intro f
  induction f with
  | zero => intro n h; omega
  | succ f ih =>
    intro n h
    by_cases hz : n / 10 = 0
    · simp only [Nat.toDigitsCore, if_pos hz]
      show val10 [Nat.digitChar (n % 10)] = n
      have h10 : n % 10 < 10 := Nat.mod_lt n (by norm_num)
      simp [val10, charVal_digitChar (n % 10) h10]
      omega
    · simp only [Nat.toDigitsCore, if_neg hz]
      rw [toDigitsCore_acc, val10_append]
      show (val10 (Nat.toDigitsCore 10 f (n / 10) [])) * 10
          + charVal (Nat.digitChar (n % 10)) = n
      rw [ih (n / 10) (by omega),
          charVal_digitChar (n % 10) (Nat.mod_lt n (by norm_num))]
      omega

/-- The decimal representation of a natural number denotes it. -/
theorem val10_repr (n : Nat) : val10 (Nat.repr n).data = n :=
  val10_toDigitsCore (n + 1) n (Nat.lt_succ_self n)

/-- Decimal rendering of naturals is injective. -/
theorem repr_injective (m n : Nat) (h : Nat.repr m = Nat.repr n) : m = n := by
  have hd : (Nat.repr m).data = (Nat.repr n).data := by rw [h]
  have hv := congrArg val10 hd
  rwa [val10_repr, val10_repr] at hv

/-- The digit string never contains an underscore. -/
theorem toDigitsCore_no_underscore :
    ∀ (f n : Nat) (acc : List Char), Char.ofNat 95 ∉ acc →
      Char.ofNat 95 ∉ Nat.toDigitsCore 10 f n acc := by
  intro f
  induction f with
  | zero => intro n acc h; simpa [Nat.toDigitsCore] using h
  | succ f ih =>
    intro n acc h
    have h10 : n % 10 < 10 := Nat.mod_lt n (by norm_num)
    have hd : Char.ofNat 95 ∉ Nat.digitChar (n % 10) :: acc := by
      intro hmem
      rcases List.mem_cons.mp hmem with heq | hmem2
      · exact digitChar_ne_underscore (n % 10) h10 heq.symm
      · exact h hmem2
    by_cases hz : n / 10 = 0
    · simpa [Nat.toDigitsCore, hz] using hd
    · simpa only [Nat.toDigitsCore, if_neg hz] using ih (n / 10) _ hd

theorem repr_no_underscore (n : Nat) : Char.ofNat 95 ∉ (Nat.repr n).data :=
  toDigitsCore_no_underscore (n + 1) n [] (by simp)

/-- Splitting two equal strings at an underscore whose left part is
underscore-free is unambiguous. -/
theorem append_underscore_split :
    ∀ (u v x y : List Char), Char.ofNat 95 ∉ u → Char.ofNat 95 ∉ v →
      u ++ Char.ofNat 95 :: x = v ++ Char.ofNat 95 :: y → u = v ∧ x = y := by
  intro u
  induction u with
  | nil =>
    intro v x y _ hv h
    cases v with
    | nil => simpa using h
    | cons c vt =>
      rw [List.nil_append, List.cons_append] at h
      injection h with h1 h2
      subst h1
      exact absurd (List.mem_cons_self _ vt) hv
  | cons a ut ih =>
    intro v x y hu hv h
    cases v with
    | nil =>
      rw [List.cons_append, List.nil_append] at h
      injection h with h1 h2
      subst h1
      exact absurd (List.mem_cons_self _ ut) hu
    | cons b vt =>
      rw [List.cons_append, List.cons_append] at h
      injection h with h1 h2
      have hu2 : Char.ofNat 95 ∉ ut := fun hm => hu (List.mem_cons_of_mem _ hm)
      have hv2 : Char.ofNat 95 ∉ vt := fun hm => hv (List.mem_cons_of_mem _ hm)
      obtain ⟨he, hxy⟩ := ih vt x y hu2 hv2 h2
      exact ⟨by rw [h1, he], hxy⟩

/-- The entity-dimension key construction is injective. -/
theorem makeEntityDimensionKey_inj (n1 n2 : String) (i1 i2 : Nat)
    (h : makeEntityDimensionKey n1 i1 = makeEntityDimensionKey n2 i2) :
    n1 = n2 ∧ i1 = i2 := by
  have ht : ∀ i : Nat, (toString i : String) = Nat.repr i := fun _ => rfl
  have hd : n1.data ++ Char.ofNat 95 :: (Nat.repr i1).data
      = n2.data ++ Char.ofNat 95 :: (Nat.repr i2).data := by
    have h2 := congrArg String.data h
    simpa [makeEntityDimensionKey, String.data_append, ht,
      show ("_" : String).data = [Char.ofNat 95] from rfl] using h2
  have hrev : (Nat.repr i1).data.reverse ++ Char.ofNat 95 :: n1.data.reverse
      = (Nat.repr i2).data.reverse ++ Char.ofNat 95 :: n2.data.reverse := by
    have h3 := congrArg List.reverse hd
    simpa [List.reverse_append] using h3
  have hu : Char.ofNat 95 ∉ (Nat.repr i1).data.reverse := by
    simpa using repr_no_underscore i1
  have hv : Char.ofNat 95 ∉ (Nat.repr i2).data.reverse := by
    simpa using repr_no_underscore i2
  obtain ⟨hr, hn⟩ := append_underscore_split _ _ _ _ hu hv hrev
  refine ⟨String.ext (List.reverse_injective hn), ?_⟩
  exact repr_injective i1 i2 (String.ext (List.reverse_injective hr))

/-- Deduplication only keeps original elements. -/
theorem mem_dedupOnAux {α β : Type} [DecidableEq β] (key : α → β) :
    ∀ (l : List α) (seen : List β) (x : α), x ∈ dedupOnAux key seen l → x ∈ l := by
  intro l
  induction l with
  | nil => intro seen x h; exact absurd h (List.not_mem_nil x)
  | cons a rest ih =>
    intro seen x h
    by_cases hk : key a ∈ seen
    · simp only [dedupOnAux, if_pos hk] at h
      exact List.mem_cons_of_mem _ (ih _ _ h)
    · simp only [dedupOnAux, if_neg hk] at h
      rcases List.mem_cons.mp h with rfl | hm
      · exact List.mem_cons_self _ _
      · exact List.mem_cons_of_mem _ (ih _ _ hm)

theorem mem_dedupOn {α β : Type} [DecidableEq β] (key : α → β) (l : List α) (x : α)
    (h : x ∈ dedupOn key l) : x ∈ l := mem_dedupOnAux key l [] x h

/-- The kept representatives have pairwise distinct keys (and avoid the
already-seen keys). -/
theorem dedupOnAux_key_nodup {α β : Type} [DecidableEq β] (key : α → β) :
    ∀ (l : List α) (seen : List β),
      ((dedupOnAux key seen l).map key).Nodup ∧
      ∀ x ∈ dedupOnAux key seen l, key x ∉ seen := by
  intro l
  induction l with
  | nil =>
    intro seen
    exact ⟨List.nodup_nil, fun x h => absurd h (List.not_mem_nil x)⟩
  | cons a rest ih =>
    intro seen
    by_cases hk : key a ∈ seen
    · simp only [dedupOnAux, if_pos hk]
      exact ih seen
    · simp only [dedupOnAux, if_neg hk]
      obtain ⟨hnd, hns⟩ := ih (key a :: seen)
      refine ⟨?_, ?_⟩
      · simp only [List.map_cons, List.nodup_cons]
        refine ⟨?_, hnd⟩
        intro hmem
        obtain ⟨x, hx, hkx⟩ := List.mem_map.mp hmem
        exact (hns x hx) (by rw [hkx]; exact List.mem_cons_self _ _)
      · intro x hx
        rcases List.mem_cons.mp hx with rfl | hm
        · exact hk
        · exact fun hmem => (hns x hm) (List.mem_cons_of_mem _ hmem)

theorem dedupOn_key_nodup {α β : Type} [DecidableEq β] (key : α → β) (l : List α) :
    ((dedupOn key l).map key).Nodup := (dedupOnAux_key_nodup key l []).1

/-- Two kept representatives with the same key coincide. -/
theorem dedupOn_key_inj {α β : Type} [DecidableEq β] (key : α → β) (l : List α)
    (a b : α) (ha : a ∈ dedupOn key l) (hb : b ∈ dedupOn key l)
    (h : key a = key b) : a = b :=
  List.inj_on_of_nodup_map (dedupOn_key_nodup key l) ha hb h

/-- Looking up a key in a `jsSet` fold: if some folded entry carries the key
(or the seed already does) and all folded entries with that key agree on the
value, the lookup returns that value. -/
theorem jsGet_foldl_jsSet_of_key {κ α β : Type} [DecidableEq κ]
    (f : β → κ) (g : β → α) (k : κ) (v : α) :
    ∀ (l : List β) (m0 : List (κ × α)),
      (jsGet m0 k = some v ∨ ∃ b ∈ l, f b = k) →
      (∀ b ∈ l, f b = k → g b = v) →
      jsGet (l.foldl (fun m x => jsSet m (f x) (g x)) m0) k = some v := by
  intro l
  induction l with
  | nil =>
    intro m0 hex _
    rcases hex with h | ⟨b, hb, _⟩
    · exact h
    · exact absurd hb (List.not_mem_nil b)
  | cons x rest ih =>
    intro m0 hex hall
    show jsGet (rest.foldl _ (jsSet m0 (f x) (g x))) k = some v
    by_cases hk : f x = k
    · refine ih _ (Or.inl ?_) (fun b hb => hall b (List.mem_cons_of_mem _ hb))
      rw [jsGet_jsSet, if_pos hk.symm, hall x (List.mem_cons_self _ _) hk]
    · refine ih _ ?_ (fun b hb => hall b (List.mem_cons_of_mem _ hb))
      rcases hex with h | ⟨b, hb, hfb⟩
      · refine Or.inl ?_
        rw [jsGet_jsSet, if_neg (fun hkk => hk hkk.symm)]
        exact h
      · rcases List.mem_cons.mp hb with rfl | hm
        · exact absurd hfb hk
        · exact Or.inr ⟨b, hm, hfb⟩

/-- Specialization: membership plus per-key value determinism pins the
lookup. -/
theorem jsGet_foldl_jsSet_self_key {κ α β : Type} [DecidableEq κ]
    (f : β → κ) (g : β → α) (l : List β) (b : β) (hb : b ∈ l)
    (hdet : ∀ x ∈ l, f x = f b → g x = g b) :
    jsGet (l.foldl (fun m x => jsSet m (f x) (g x)) []) (f b) = some (g b) :=
  jsGet_foldl_jsSet_of_key f g (f b) (g b) l [] (Or.inr ⟨b, hb, rfl⟩) hdet

/-- A missing key in a `jsSet` fold over an empty seed. -/
theorem jsGet_foldl_jsSet_none {κ α β : Type} [DecidableEq κ]
    (f : β → κ) (g : β → α) (l : List β) (k : κ)
    (h : ∀ b ∈ l, f b ≠ k) :
    jsGet (l.foldl (fun m x => jsSet m (f x) (g x)) []) k = none := by
  cases hg : jsGet (l.foldl (fun m x => jsSet m (f x) (g x)) []) k with
  | none => rfl
  | some v =>
    rcases jsGet_foldl_jsSet f g l [] k v hg with ⟨b, hb, hfb, _⟩ | hnone
    · exact absurd hfb (h b hb)
    · simp [jsGet] at hnone

/-- A nested per-dimension/per-entity fold is the flat fold over the
generator pairs. -/
theorem foldl_foldl_jsSet {κ α γ δ : Type} [DecidableEq κ]
    (h : γ → List δ) (kf : γ → δ → κ) (vf : γ → δ → α) :
    ∀ (l : List γ) (m0 : List (κ × α)),
      l.foldl (fun m p => (h p).foldl (fun m2 y => jsSet m2 (kf p y) (vf p y)) m) m0
        = (l.flatMap (fun p => (h p).map (fun y => (p, y)))).foldl
            (fun m q => jsSet m (kf q.1 q.2) (vf q.1 q.2)) m0 := by
  intro l
  induction l with
  | nil => intro m0; rfl
  | cons p rest ih =>
    intro m0
    show rest.foldl _ ((h p).foldl _ m0) = _
    rw [ih, List.flatMap_cons, List.foldl_append, List.foldl_map]

/-- `mapM` over a rendered list, when every rendering resolves. -/
theorem mapM_map_eq_some {α β γ : Type} (g : α → β) (f : β → Option γ) (h : α → γ) :
    ∀ (l : List α), (∀ x ∈ l, f (g x) = some (h x)) →
      (l.map g).mapM f = some (l.map h) := by
  intro l
  induction l with
  | nil => intro _; rfl
  | cons a rest ih =>
    intro hall
    rw [List.map_cons, List.map_cons, List.mapM_cons,
      hall a (List.mem_cons_self _ _),
      ih (fun x hx => hall x (List.mem_cons_of_mem _ hx))]
    rfl

/-- "The value is a JS string" as a decidable check. -/
def isStrOpt : Option Val → Bool
  | some (Val.str _) => true
  | _ => false

theorem isStrOpt_iff (en : Option Val) :
    isStrOpt en = true ↔ ∃ nm, en = some (Val.str nm) := by
  cases en with
  | none => simp [isStrOpt]
  | some v => cases v <;> simp [isStrOpt]

/-- An index hit turns into `enum` membership. -/
theorem get?_mem_enum {α : Type} (l : List α) (i : Nat) (a : α)
    (h : l.get? i = some a) : (i, a) ∈ l.enum := by
  rw [List.get?_eq_getElem?] at h
  exact List.mem_enum_iff_getElem?.mpr h

/-- `enum` holds one element per index. -/
theorem enum_index_det {α : Type} (l : List α) (i : Nat) (a b : α)
    (ha : (i, a) ∈ l.enum) (hb : (i, b) ∈ l.enum) : a = b := by
  have ha2 := List.mem_enum_iff_getElem?.mp ha
  have hb2 := List.mem_enum_iff_getElem?.mp hb
  rw [ha2] at hb2
  exact Option.some_inj.mp hb2

/-- Unpacking a successful validity check. -/
theorem validSelection_true (cfg : ChartState) (sel : EntitySelection)
    (h : validSelection cfg sel = true) :
    ∃ dim, (primaryDimensions cfg).get? sel.index = some dim ∧
      jsTruthyOpt (mapGetU (entityIdToNameMap cfg.table) sel.entityId) = true ∧
      mapGetU (entityIdToNameMap cfg.table) sel.entityId
        ∈ colEntityNamesUniq cfg.table dim.column := by
  unfold validSelection at h
  cases hd : (primaryDimensions cfg).get? sel.index with
  | none => rw [hd] at h; simp at h
  | some dim =>
    rw [hd] at h
    refine ⟨dim, rfl, ?_, ?_⟩
    · by_cases h1 : jsTruthyOpt (mapGetU (entityIdToNameMap cfg.table) sel.entityId)
      · exact h1
      · simp only [h1, Bool.false_eq_true, not_false_eq_true, if_pos] at h
    · by_cases h1 : jsTruthyOpt (mapGetU (entityIdToNameMap cfg.table) sel.entityId)
      · simp [h1] at h
        exact h.1
      · simp [h1] at h

/-- The entity-dimension index, flattened to one `jsSet` fold over the
generator pairs. -/
theorem entityDimensionMap_eq (cfg : ChartState) (h : isReady cfg = true) :
    entityDimensionMap cfg
      = ((primaryDimensions cfg).enum.flatMap
          (fun p => (colEntityNamesUniq cfg.table p.2.column).map (fun en => (p, en)))).foldl
          (fun m q =>
            jsSet m (makeEntityDimensionKey (jsToStringOpt q.2) q.1.1)
              { entityDimensionKey := makeEntityDimensionKey (jsToStringOpt q.2) q.1.1
                entityId := mapGetU (entityNameToIdMap cfg.table) q.2
                entity := q.2
                index := q.1.1 }) [] := by
  have h1 : entityDimensionMap cfg
      = (primaryDimensions cfg).enum.foldl
          (fun m p =>
            (colEntityNamesUniq cfg.table p.2.column).foldl
              (fun m2 en =>
                jsSet m2 (makeEntityDimensionKey (jsToStringOpt en) p.1)
                  { entityDimensionKey := makeEntityDimensionKey (jsToStringOpt en) p.1
                    entityId := mapGetU (entityNameToIdMap cfg.table) en
                    entity := en
                    index := p.1 }) m) [] := by
    simp [entityDimensionMap, h]
  rw [h1, foldl_foldl_jsSet]

/-- On a ready chart with string entity names, the key of a valid selection
entry resolves in the entity-dimension index to exactly its own
(entityName, dimensionIndex) record. -/
theorem lookupKey_of_valid (cfg : ChartState) (hready : isReady cfg = true)
    (hstr : ∀ p ∈ (primaryDimensions cfg).enum,
      ∀ en ∈ colEntityNamesUniq cfg.table p.2.column, isStrOpt en = true)
    (sel : EntitySelection) (hvalid : validSelection cfg sel = true) :
    lookupKey cfg (makeEntityDimensionKey
        (jsToStringOpt (mapGetU (entityIdToNameMap cfg.table) sel.entityId)) sel.index)
      = some { entityDimensionKey := makeEntityDimensionKey
                 (jsToStringOpt (mapGetU (entityIdToNameMap cfg.table) sel.entityId))
                 sel.index
               entityId := mapGetU (entityNameToIdMap cfg.table)
                 (mapGetU (entityIdToNameMap cfg.table) sel.entityId)
               entity := mapGetU (entityIdToNameMap cfg.table) sel.entityId
               index := sel.index } := by
  obtain ⟨dim, hdim, _, hmem⟩ := validSelection_true cfg sel hvalid
  have hpenum : (sel.index, dim) ∈ (primaryDimensions cfg).enum :=
    get?_mem_enum _ _ _ hdim
  have hgen : (((sel.index, dim), mapGetU (entityIdToNameMap cfg.table) sel.entityId) :
        (Nat × FilledDimension) × Option Val)
      ∈ (primaryDimensions cfg).enum.flatMap
          (fun p => (colEntityNamesUniq cfg.table p.2.column).map (fun en => (p, en))) :=
    List.mem_flatMap.mpr ⟨(sel.index, dim), hpenum,
      List.mem_map.mpr ⟨_, hmem, rfl⟩⟩
  have hdet : ∀ q ∈ (primaryDimensions cfg).enum.flatMap
        (fun p => (colEntityNamesUniq cfg.table p.2.column).map (fun en => (p, en))),
      (fun q : (Nat × FilledDimension) × Option Val =>
          makeEntityDimensionKey (jsToStringOpt q.2) q.1.1) q
        = (fun q : (Nat × FilledDimension) × Option Val =>
            makeEntityDimensionKey (jsToStringOpt q.2) q.1.1)
            (((sel.index, dim), mapGetU (entityIdToNameMap cfg.table) sel.entityId)) →
      (fun q : (Nat × FilledDimension) × Option Val =>
          ({ entityDimensionKey := makeEntityDimensionKey (jsToStringOpt q.2) q.1.1
             entityId := mapGetU (entityNameToIdMap cfg.table) q.2
             entity := q.2
             index := q.1.1 } : EntityDimensionInfo)) q
        = (fun q : (Nat × FilledDimension) × Option Val =>
            ({ entityDimensionKey := makeEntityDimensionKey (jsToStringOpt q.2) q.1.1
               entityId := mapGetU (entityNameToIdMap cfg.table) q.2
               entity := q.2
               index := q.1.1 } : EntityDimensionInfo))
            (((sel.index, dim), mapGetU (entityIdToNameMap cfg.table) sel.entityId)) := by
    intro q hq hkq
    obtain ⟨p2, hp2, hq2⟩ := List.mem_flatMap.mp hq
    obtain ⟨en2, hen2, hq3⟩ := List.mem_map.mp hq2
    subst hq3
    simp only at hkq ⊢
    obtain ⟨hjs, hidx⟩ := makeEntityDimensionKey_inj _ _ _ _ hkq
    obtain ⟨nm2, hnm2⟩ := (isStrOpt_iff en2).mp (hstr p2 hp2 en2 hen2)
    obtain ⟨nm0, hnm0⟩ := (isStrOpt_iff _).mp
      (hstr (sel.index, dim) hpenum _ hmem)
    have hen : en2 = mapGetU (entityIdToNameMap cfg.table) sel.entityId := by
      rw [hnm2, hnm0]
      rw [hnm2, hnm0] at hjs
      simp only [jsToStringOpt, jsToString] at hjs
      rw [hjs]
    simp only [hen, hidx]
  have happ := jsGet_foldl_jsSet_self_key
    (fun q : (Nat × FilledDimension) × Option Val =>
      makeEntityDimensionKey (jsToStringOpt q.2) q.1.1)
    (fun q : (Nat × FilledDimension) × Option Val =>
      ({ entityDimensionKey := makeEntityDimensionKey (jsToStringOpt q.2) q.1.1
         entityId := mapGetU (entityNameToIdMap cfg.table) q.2
         entity := q.2
         index := q.1.1 } : EntityDimensionInfo))
    ((primaryDimensions cfg).enum.flatMap
      (fun p => (colEntityNamesUniq cfg.table p.2.column).map (fun en => (p, en))))
    (((sel.index, dim), mapGetU (entityIdToNameMap cfg.table) sel.entityId))
    hgen hdet
  show jsGet (entityDimensionMap cfg) _ = _
  rw [entityDimensionMap_eq cfg hready]
  exact happ

/-- Under the id→name→id round-trip hypothesis, equal keys force equal
deduplicated entries. -/
theorem dedup_key_inj_of_roundtrip (cfg : ChartState)
    (hstr : ∀ p ∈ (primaryDimensions cfg).enum,
      ∀ en ∈ colEntityNamesUniq cfg.table p.2.column, isStrOpt en = true)
    (hvalid : ∀ s ∈ cfg.props.selectedData, validSelection cfg s = true)
    (hid : ∀ s ∈ cfg.props.selectedData,
      mapGetU (entityNameToIdMap cfg.table)
        (mapGetU (entityIdToNameMap cfg.table) s.entityId) = s.entityId)
    (s sel : EntitySelection)
    (hs : s ∈ dedupOn (fun x => (x.entityId, x.index)) cfg.props.selectedData)
    (hsel : sel ∈ dedupOn (fun x => (x.entityId, x.index)) cfg.props.selectedData)
    (hk : makeEntityDimensionKey
        (jsToStringOpt (mapGetU (entityIdToNameMap cfg.table) s.entityId)) s.index
      = makeEntityDimensionKey
        (jsToStringOpt (mapGetU (entityIdToNameMap cfg.table) sel.entityId)) sel.index) :
    s = sel := by
  obtain ⟨hjs, hidx⟩ := makeEntityDimensionKey_inj _ _ _ _ hk
  obtain ⟨dimS, hdS, _, hmS⟩ :=
    validSelection_true cfg s (hvalid s (mem_dedupOn _ _ _ hs))
  obtain ⟨dimT, hdT, _, hmT⟩ :=
    validSelection_true cfg sel (hvalid sel (mem_dedupOn _ _ _ hsel))
  obtain ⟨nmS, hnS⟩ := (isStrOpt_iff _).mp
    (hstr (s.index, dimS) (get?_mem_enum _ _ _ hdS) _ hmS)
  obtain ⟨nmT, hnT⟩ := (isStrOpt_iff _).mp
    (hstr (sel.index, dimT) (get?_mem_enum _ _ _ hdT) _ hmT)
  have hname : mapGetU (entityIdToNameMap cfg.table) s.entityId
      = mapGetU (entityIdToNameMap cfg.table) sel.entityId := by
    rw [hnS, hnT]
    rw [hnS, hnT] at hjs
    simp only [jsToStringOpt, jsToString] at hjs
    rw [hjs]
  have hident : s.entityId = sel.entityId := by
    rw [← hid s (mem_dedupOn _ _ _ hs), ← hid sel (mem_dedupOn _ _ _ hsel), hname]
  exact dedupOn_key_inj _ _ s sel hs hsel (by rw [hident, hidx])

/-- Conditional accumulation is accumulation over the filtered list. -/
theorem foldl_if_filter {α β : Type} (p : β → Prop) [DecidablePred p] (f : α → β → α) :
    ∀ (l : List β) (m : α),
      l.foldl (fun a b => if p b then f a b else a) m
        = (l.filter (fun b => decide (p b))).foldl f m := by
  intro l
  induction l with
  | nil => intro m; rfl
  | cons b rest ih =>
    intro m
    by_cases hb : p b
    · rw [show (b :: rest).foldl (fun a b => if p b then f a b else a) m
          = rest.foldl (fun a b => if p b then f a b else a)
              (if p b then f m b else m) from rfl,
        if_pos hb, List.filter_cons, if_pos (by simpa using hb),
        List.foldl_cons, ih]
    · rw [show (b :: rest).foldl (fun a b => if p b then f a b else a) m
          = rest.foldl (fun a b => if p b then f a b else a)
              (if p b then f m b else m) from rfl,
        if_neg hb, List.filter_cons, if_neg (by simpa using hb), ih]

/-- `keyColors` as a plain `jsSet` fold over the truthy-colored selection
data. -/
theorem keyColors_eq (cfg : ChartState) :
    keyColors cfg
      = List.foldl (fun m d => jsSet m d.entityDimensionKey (d.color.getD "")) []
          ((selectionData cfg).filter (fun d => decide (d.color.getD "" ≠ ""))) := by
  unfold keyColors
  rw [show (fun (m : List (String × String)) (d : SelectionDatum) =>
      match d.color with
      | some c => if c ≠ "" then jsSet m d.entityDimensionKey c else m
      | none => m)
    = (fun m d =>
        if d.color.getD "" ≠ ""
        then jsSet m d.entityDimensionKey (d.color.getD "") else m) from by
    funext m d
    cases hc : d.color with
    | none => simp
    | some c => by_cases hce : c = "" <;> simp [hce]]
  exact foldl_if_filter (fun d => d.color.getD "" ≠ "")
    (fun m d => jsSet m d.entityDimensionKey (d.color.getD ""))
    (selectionData cfg) []

/-- The color the setter carries over for a deduplicated valid entry is the
entry's own persisted color (empty-string colors excluded: `keyColors` drops
falsy colors). -/
theorem keyColors_of_valid (cfg : ChartState)
    (hstr : ∀ p ∈ (primaryDimensions cfg).enum,
      ∀ en ∈ colEntityNamesUniq cfg.table p.2.column, isStrOpt en = true)
    (hvalid : ∀ s ∈ cfg.props.selectedData, validSelection cfg s = true)
    (hid : ∀ s ∈ cfg.props.selectedData,
      mapGetU (entityNameToIdMap cfg.table)
        (mapGetU (entityIdToNameMap cfg.table) s.entityId) = s.entityId)
    (sel : EntitySelection)
    (hsel : sel ∈ dedupOn (fun s => (s.entityId, s.index)) cfg.props.selectedData)
    (hcol : sel.color ≠ some "") :
    jsGet (keyColors cfg)
      (makeEntityDimensionKey
        (jsToStringOpt (mapGetU (entityIdToNameMap cfg.table) sel.entityId)) sel.index)
      = sel.color := by
  have hsd : selectionData cfg
      = (dedupOn (fun s => (s.entityId, s.index)) cfg.props.selectedData).map
          (fun s =>
            ({ entityDimensionKey :=
                 makeEntityDimensionKey
                   (jsToStringOpt (mapGetU (entityIdToNameMap cfg.table) s.entityId))
                   s.index
               color := s.color } : SelectionDatum)) := by
    simp only [selectionData]
    rw [List.filter_eq_self.mpr hvalid]
  rw [keyColors_eq, hsd]
  cases hc : sel.color with
  | some c =>
    have hce : c ≠ "" := by
      intro hceq
      exact hcol (by rw [hc, hceq])
    refine jsGet_foldl_jsSet_of_key
      (fun d : SelectionDatum => d.entityDimensionKey)
      (fun d : SelectionDatum => d.color.getD "") _ c _ []
      (Or.inr ⟨_, List.mem_filter.mpr
        ⟨List.mem_map_of_mem _ hsel, by simp [hc, hce]⟩, rfl⟩) ?_
    intro d hd hkd
    obtain ⟨s, hs, hds⟩ := List.mem_map.mp (List.mem_of_mem_filter hd)
    subst hds
    have hseq : s = sel := dedup_key_inj_of_roundtrip cfg hstr hvalid hid s sel hs hsel hkd
    rw [hseq, hc]
    rfl
  | none =>
    refine jsGet_foldl_jsSet_none
      (fun d : SelectionDatum => d.entityDimensionKey)
      (fun d : SelectionDatum => d.color.getD "") _ _ ?_
    intro d hd hkd
    obtain ⟨s, hs, hds⟩ := List.mem_map.mp (List.mem_of_mem_filter hd)
    subst hds
    have hseq : s = sel := dedup_key_inj_of_roundtrip cfg hstr hvalid hid s sel hs hsel hkd
    have hq := (List.mem_filter.mp hd).2
    rw [hseq, hc] at hq
    simp at hq

/-- **C7, amended.**  While not ready, writing `selectedKeys` is a no-op.  On
a ready chart whose entity names are strings, whose persisted entries are all
valid, whose name→id map inverts the id→name map on the selected ids (no
duplicate entity names among them), and whose colors are never the empty
string, reading `selectedKeys` and writing the result back replaces the
persisted selection with its deduplication by (entityId, dimensionIndex) —
same pairs, colors preserved.  (Without the inversion hypothesis the claim
fails: see the counterexample with two entities named alike.) -/
theorem c7_selection_roundtrip (cfg : ChartState) (keys : List String)
    (hstr : ∀ p ∈ (primaryDimensions cfg).enum,
      ∀ en ∈ colEntityNamesUniq cfg.table p.2.column, isStrOpt en = true)
    (hvalid : ∀ s ∈ cfg.props.selectedData, validSelection cfg s = true)
    (hid : ∀ s ∈ cfg.props.selectedData,
      mapGetU (entityNameToIdMap cfg.table)
        (mapGetU (entityIdToNameMap cfg.table) s.entityId) = s.entityId)
    (hcolor : ∀ s ∈ cfg.props.selectedData, s.color ≠ some "") :
    (isReady cfg = false → setSelectedKeys cfg keys = some cfg) ∧
    (isReady cfg = true →
      setSelectedKeys cfg (selectedKeys cfg)
        = some { cfg with
            props := { cfg.props with
              selectedData :=
                dedupOn (fun s => (s.entityId, s.index))
                  cfg.props.selectedData } }) := by
  constructor
  · intro h
    simp [setSelectedKeys, h]
  · intro hready
    have hsd : selectionData cfg
        = (dedupOn (fun s => (s.entityId, s.index)) cfg.props.selectedData).map
            (fun s =>
              ({ entityDimensionKey :=
                   makeEntityDimensionKey
                     (jsToStringOpt (mapGetU (entityIdToNameMap cfg.table) s.entityId))
                     s.index
                 color := s.color } : SelectionDatum)) := by
      simp only [selectionData]
      rw [List.filter_eq_self.mpr hvalid]
    have hkeys : selectedKeys cfg
        = (dedupOn (fun s => (s.entityId, s.index)) cfg.props.selectedData).map
            (fun s => makeEntityDimensionKey
              (jsToStringOpt (mapGetU (entityIdToNameMap cfg.table) s.entityId))
              s.index) := by
      unfold selectedKeys
      rw [hsd, List.map_map]
      rfl
    have helem : ∀ s ∈ dedupOn (fun s => (s.entityId, s.index)) cfg.props.selectedData,
        (fun key =>
          (lookupKey cfg key).map (fun meta =>
            ({ entityId := mapGetU (entityNameToIdMap cfg.table) meta.entity
               index := meta.index
               color := jsGet (keyColors cfg) key } : EntitySelection)))
          (makeEntityDimensionKey
            (jsToStringOpt (mapGetU (entityIdToNameMap cfg.table) s.entityId)) s.index)
        = some s := by
      intro s hs
      have hsmem := mem_dedupOn _ _ _ hs
      simp only
      rw [lookupKey_of_valid cfg hready hstr s (hvalid s hsmem)]
      show some
          ({ entityId :=
               mapGetU (entityNameToIdMap cfg.table)
                 (mapGetU (entityIdToNameMap cfg.table) s.entityId)
             index := s.index
             color :=
               jsGet (keyColors cfg)
                 (makeEntityDimensionKey
                   (jsToStringOpt (mapGetU (entityIdToNameMap cfg.table) s.entityId))
                   s.index) } : EntitySelection)
        = some s
      rw [hid s hsmem,
        keyColors_of_valid cfg hstr hvalid hid s hs (hcolor s hsmem)]
    have hmapM : ((dedupOn (fun s => (s.entityId, s.index)) cfg.props.selectedData).map
          (fun s => makeEntityDimensionKey
            (jsToStringOpt (mapGetU (entityIdToNameMap cfg.table) s.entityId))
            s.index)).mapM
          (fun key =>
            (lookupKey cfg key).map (fun meta =>
              ({ entityId := mapGetU (entityNameToIdMap cfg.table) meta.entity
                 index := meta.index
                 color := jsGet (keyColors cfg) key } : EntitySelection)))
        = some (dedupOn (fun s => (s.entityId, s.index)) cfg.props.selectedData) := by
      have h2 := mapM_map_eq_some
        (fun s => makeEntityDimensionKey
          (jsToStringOpt (mapGetU (entityIdToNameMap cfg.table) s.entityId)) s.index)
        (fun key =>
          (lookupKey cfg key).map (fun meta =>
            ({ entityId := mapGetU (entityNameToIdMap cfg.table) meta.entity
               index := meta.index
               color := jsGet (keyColors cfg) key } : EntitySelection)))
        (fun s => s)
        (dedupOn (fun s => (s.entityId, s.index)) cfg.props.selectedData) helem
      simpa using h2
    rw [hkeys]
    unfold setSelectedKeys
    rw [if_neg (by simp [hready]), hmapM]
    rfl

/-- Two rows with different entity ids but the same entity name "A". -/
def c7Table : Table :=
  mkTable
    [[("entityName", Val.str "A"), ("entityId", Val.num 1), ("v", Val.num 3)],
     [("entityName", Val.str "A"), ("entityId", Val.num 2), ("v", Val.num 4)]]
    [("entityName", { slug := "entityName" }),
     ("entityId", { slug := "entityId" }),
     ("entityCode", { slug := "entityCode" }),
     ("v", { slug := "v", owidVariableId := some 7 })]

/-- One valid persisted entry, selecting entity id 1. -/
def c7Selected : List EntitySelection :=
  [{ entityId := some (Val.num 1), index := 0, color := none }]

/-- A ready chart over `c7Table`. -/
def c7Cfg : ChartState :=
  { props := { selectedData := c7Selected
               dimensions := [{ property := "y", variableId := 7 }]
               addCountryMode := none }
    table := c7Table }

/-- **C7, counterexample.**  The claim promises that for selections with only
valid entries the read→write round trip reproduces the same
(entityId, dimensionIndex) pairs.  With two entities sharing the name "A" the
key "A_0" of the entry for id 1 resolves back through the last-write-wins
name→id map to id 2: the persisted pair set changes from {(1,0)} to
{(2,0)}. -/
theorem c7_counterexample :
    isReady c7Cfg = true ∧
    (∀ sel ∈ c7Cfg.props.selectedData, validSelection c7Cfg sel = true) ∧
    c7Cfg.props.selectedData.map (fun s => (s.entityId, s.index))
      = [(some (Val.num 1), 0)] ∧
    (setSelectedKeys c7Cfg (selectedKeys c7Cfg)).map
        (fun c => c.props.selectedData.map (fun s => (s.entityId, s.index)))
      = some [(some (Val.num 2), 0)] := by
  decide

/-- Two rows with distinct names "A" and "B". -/
def c7wTable : Table :=
  mkTable
    [[("entityName", Val.str "A"), ("entityId", Val.num 1), ("v", Val.num 3)],
     [("entityName", Val.str "B"), ("entityId", Val.num 2), ("v", Val.num 4)]]
    [("entityName", { slug := "entityName" }),
     ("entityId", { slug := "entityId" }),
     ("entityCode", { slug := "entityCode" }),
     ("v", { slug := "v", owidVariableId := some 7 })]

/-- Three valid entries (one duplicated pair, one colored). -/
def c7wSelected : List EntitySelection :=
  [{ entityId := some (Val.num 1), index := 0, color := some "red" },
   { entityId := some (Val.num 2), index := 0, color := none },
   { entityId := some (Val.num 1), index := 0, color := some "red" }]

/-- A ready chart over `c7wTable`. -/
def c7wCfg : ChartState :=
  { props := { selectedData := c7wSelected
               dimensions := [{ property := "y", variableId := 7 }]
               addCountryMode := none }
    table := c7wTable }

/-- Witness for `c7_selection_roundtrip`: on a concrete ready chart with
distinct entity names the round trip deduplicates and preserves colors. -/
theorem c7_selection_roundtrip_witness :
    setSelectedKeys c7wCfg (selectedKeys c7wCfg)
      = some { c7wCfg with
          props := { c7wCfg.props with
            selectedData :=
              dedupOn (fun s => (s.entityId, s.index))
                c7wCfg.props.selectedData } } :=
  (c7_selection_roundtrip c7wCfg [] (by decide) (by decide) (by decide)
    (by decide)).2 (by decide)

end Owid
